import Mathlib

/-!
Shallow embedding of the equilibrium construction-and-verification engine of
the "Location games with reputation" repository
(`location_games_with_reputation_{2,3,4,n}_players.py`).

Real numbers of the source are modelled as `ℚ`; Python run-time errors
(IndexError on out-of-range list access, ZeroDivisionError) are modelled by
`Option`, with `none` standing for an uncaught exception.  List indices are
`Nat`; all claims concern player counts for which every Python index is
non-negative, so Python's negative-index wrap-around never arises.
The sorting step `R = sorted(R)` at the head of each `equilibrium_*` function
is split off into a `*_sorted` helper so that the sorting and the verification
logic can be reasoned about separately.
-/

/-- Embeds `delta_distance` (identical in all four source files): the capture
half-width `1/(4c)`.  `none` models the ZeroDivisionError raised when `4*c = 0`. -/
def delta_distance (c : ℚ) : Option ℚ :=
  if 4 * c = 0 then none else some (1 / (4 * c))

/-! ## Two players (`location_games_with_reputation_2_players.py`) -/

/-- Embeds the body of `equilibrium_2_players` after its sorting step
(lines 104-128 of the 2-player file). -/
def equilibrium_2_players_sorted (R : List ℚ) (c : ℚ) : Option String := do
  let δ ← delta_distance c
  let r0 ← R[0]?
  let r1 ← R[1]?
  if r1 - r0 < 2 * δ then
    if r1 - δ < 1 / 2 ∧ 1 / 2 < r0 + δ then pure "Eq" else pure "No Eq"
  else
    let x0 := r0 + δ
    let x1 := r1 - δ
    if 1 - x1 - c * (x1 - r0) ^ 2 < (x0 + x1) / 2 - c * (x0 - r0) ^ 2 ∧
        x0 - c * (x0 - r1) ^ 2 < 1 - (x0 + x1) / 2 - c * (x1 - r1) ^ 2 then
      pure "Eq"
    else
      pure "No Eq"

/-- Embeds `equilibrium_2_players`: sorts the reputation profile, then runs the
verification body. -/
def equilibrium_2_players (R : List ℚ) (c : ℚ) : Option String :=
  equilibrium_2_players_sorted (R.mergeSort (fun a b => a ≤ b)) c

/-! ## Three players (`location_games_with_reputation_3_players.py`) -/

/-- Embeds `Eq_candidate_3_players`: maps a sorted reputation profile to the
unique equilibrium candidate, or to the string `"No Eq"` (modelled as
`Sum.inr`) when both peripheral clustering conditions hold at once. -/
def Eq_candidate_3_players (R : List ℚ) (c : ℚ) : Option ((List ℚ) ⊕ String) := do
  let δ ← delta_distance c
  let r0 ← R[0]?
  let r1 ← R[1]?
  let r2 ← R[2]?
  if r0 + δ < r1 ∧ r2 - δ > r1 then
    pure (Sum.inl [r0 + δ, r1, r2 - δ])
  else if r0 + δ ≥ r1 ∧ r2 - δ > r1 then
    pure (Sum.inl [(r2 - δ) / 3, (r2 - δ) / 3, r2 - δ])
  else if r2 - δ ≤ r1 ∧ r0 + δ < r1 then
    pure (Sum.inl [r0 + δ, (r0 + δ + 2) / 3, (r0 + δ + 2) / 3])
  else
    pure (Sum.inr "No Eq")

/-- Embeds the "Deviations of Player 1" section of `equilibrium_3_players`
(lines 159-187): returns `true` when some deviation of player 1 (or of
players 1 and 2 when paired) is strictly profitable. -/
def dev3_player_1 (X R : List ℚ) (c : ℚ) : Option Bool := do
  let x0 ← X[0]?
  let x1 ← X[1]?
  let x2 ← X[2]?
  let r0 ← R[0]?
  let r1 ← R[1]?
  if x0 ≠ x1 then
    let payoff := (x0 + x1) / 2 - c * (x0 - r0) ^ 2
    if (1 - x2) - c * (x2 - r0) ^ 2 > payoff then pure true
    else if x1 ≠ x2 ∧ (x2 - x1) / 2 - c * (x1 - r0) ^ 2 > payoff then pure true
    else pure false
  else
    let payoff := (x0 + x2) / 4 - c * (x0 - r0) ^ 2
    if (1 - x2) - c * (x2 - r0) ^ 2 > payoff then pure true
    else
      let payoff2 := (x0 + x2) / 4 - c * (x0 - r1) ^ 2
      if (1 - x2) - c * (x2 - r1) ^ 2 > payoff2 then pure true else pure false

/-- Embeds the "Deviations of Player 3" section of `equilibrium_3_players`
(lines 189-218). -/
def dev3_player_3 (X R : List ℚ) (c : ℚ) : Option Bool := do
  let x0 ← X[0]?
  let x1 ← X[1]?
  let x2 ← X[2]?
  let r1 ← R[1]?
  let r2 ← R[2]?
  if x2 ≠ x1 then
    let payoff := (1 - (x2 + x1) / 2) - c * (x2 - r2) ^ 2
    if x0 - c * (x0 - r2) ^ 2 > payoff then pure true
    else if x1 ≠ x0 ∧ (x1 - x0) / 2 - c * (x1 - r2) ^ 2 > payoff then pure true
    else pure false
  else
    let payoff := (1 / 2 - (x2 + x0) / 4) - c * (x2 - r2) ^ 2
    if x0 - c * (x0 - r2) ^ 2 > payoff then pure true
    else
      let payoff2 := (1 / 2 - (x2 + x0) / 4) - c * (x2 - r1) ^ 2
      if x0 - c * (x0 - r1) ^ 2 > payoff2 then pure true else pure false

/-- Embeds the "Deviations of Player 2, if not paired" section of
`equilibrium_3_players` (lines 221-234). -/
def dev3_player_2 (X R : List ℚ) (c : ℚ) : Option Bool := do
  let x0 ← X[0]?
  let x1 ← X[1]?
  let x2 ← X[2]?
  let r1 ← R[1]?
  if x0 ≠ x1 ∧ x1 ≠ x2 then
    let payoff := (x2 - x0) / 2
    if x0 - c * (x0 - r1) ^ 2 > payoff then pure true
    else if (1 - x2) - c * (x2 - r1) ^ 2 > payoff then pure true
    else pure false
  else pure false

/-- Embeds the body of `equilibrium_3_players` after its sorting step
(lines 141-236): candidate construction, the two cluster-consistency checks,
then the three deviation sections in source order. -/
def equilibrium_3_players_sorted (R : List ℚ) (c : ℚ) : Option String := do
  let res ← Eq_candidate_3_players R c
  match res with
  | Sum.inr _ => pure "No Eq"
  | Sum.inl X => do
    let δ ← delta_distance c
    let x0 ← X[0]?
    let x1 ← X[1]?
    let x2 ← X[2]?
    let r0 ← R[0]?
    let r1 ← R[1]?
    let r2 ← R[2]?
    if x0 = x1 ∧ (x0 < r1 ∨ x0 > r0 + δ) then pure "No Eq"
    else if x1 = x2 ∧ (x2 < r2 - δ ∨ r1 < x2) then pure "No Eq"
    else do
      let b1 ← dev3_player_1 X R c
      if b1 then pure "No Eq" else do
        let b3 ← dev3_player_3 X R c
        if b3 then pure "No Eq" else do
          let b2 ← dev3_player_2 X R c
          if b2 then pure "No Eq" else pure "Eq"

/-- Embeds `equilibrium_3_players`: sorts the reputation profile, then runs the
verification body. -/
def equilibrium_3_players (R : List ℚ) (c : ℚ) : Option String :=
  equilibrium_3_players_sorted (R.mergeSort (fun a b => a ≤ b)) c

/-! ## Shared deviation loops

The 4-player and n-player verifiers scan "the interval in between two players"
with literal `for j in range(...)` loops of identical shape; these helpers
embed one loop iteration sequence each, recursing over the list of indices
produced by `List.range'` (the embedding of Python's `range`). -/

/-- Embeds a loop `for j in idxs: if X[j] == X[j+1]: continue;
if (X[j+1]-X[j])/2 - c*(X[j]-r)**2 > payoff: return "No Eq"` — deviations into
gaps to the right (e.g. lines 161-166 of the n-player file). -/
def right_gap_dev (X : List ℚ) (c r payoff : ℚ) : List Nat → Option Bool
  | [] => pure false
  | j :: js => do
    let xj ← X[j]?
    let xj1 ← X[j + 1]?
    if xj = xj1 then right_gap_dev X c r payoff js
    else if (xj1 - xj) / 2 - c * (xj - r) ^ 2 > payoff then pure true
    else right_gap_dev X c r payoff js

/-- Embeds a loop `for j in idxs: if X[j] == X[j-1]: continue;
if (X[j]-X[j-1])/2 - c*(X[j]-r)**2 > payoff: return "No Eq"` — deviations into
gaps to the left (e.g. lines 210-215 of the n-player file). -/
def left_gap_dev (X : List ℚ) (c r payoff : ℚ) : List Nat → Option Bool
  | [] => pure false
  | j :: js => do
    let xj ← X[j]?
    let xjm ← X[j - 1]?
    if xj = xjm then left_gap_dev X c r payoff js
    else if (xj - xjm) / 2 - c * (xj - r) ^ 2 > payoff then pure true
    else left_gap_dev X c r payoff js

/-- Embeds the "Deviations of Player p with 1 < p < n, if not paired" loop
(lines 252-284 of the n-player file; lines 247-279 of the 4-player file with
`n = 4`), recursing over the list of interior indices `p`. -/
def dev_interior (X R : List ℚ) (c : ℚ) (n : Nat) : List Nat → Option Bool
  | [] => pure false
  | p :: ps => do
    let xpm ← X[p - 1]?
    let xp ← X[p]?
    let xpp ← X[p + 1]?
    if xpm = xp ∨ xp = xpp then dev_interior X R c n ps
    else do
      let payoff := (xpp - xpm) / 2
      let x0 ← X[0]?
      let rp ← R[p]?
      let xn1 ← X[n - 1]?
      if x0 - c * (x0 - rp) ^ 2 > payoff then pure true
      else if (1 - xn1) - c * (xn1 - rp) ^ 2 > payoff then pure true
      else do
        let bl ← left_gap_dev X c rp payoff (List.range' 1 (p - 1))
        if bl then pure true else do
          let br ← right_gap_dev X c rp payoff (List.range' (p + 1) (n - 2 - p))
          if br then pure true else dev_interior X R c n ps

/-! ## Four players (`location_games_with_reputation_4_players.py`) -/

/-- Embeds `Eq_candidate_4_players` (lines 70-119): the four-way case split on
the two peripheral clustering conditions. -/
def Eq_candidate_4_players (R : List ℚ) (c : ℚ) : Option (List ℚ) := do
  let δ ← delta_distance c
  let r0 ← R[0]?
  let r1 ← R[1]?
  let r2 ← R[2]?
  let r3 ← R[3]?
  if r0 + δ < r1 ∧ r3 - δ > r2 then
    pure [r0 + δ, r1, r2, r3 - δ]
  else if r0 + δ ≥ r1 ∧ r3 - δ > r2 then
    pure [r2 / 3, r2 / 3, r2, r3 - δ]
  else if r0 + δ < r1 ∧ r3 - δ ≤ r2 then
    pure [r0 + δ, r1, (r1 + 2) / 3, (r1 + 2) / 3]
  else
    pure [1 / 4, 1 / 4, 3 / 4, 3 / 4]

/-- Embeds the "Deviations of Player 1" section of `equilibrium_4_players`
(lines 164-203). -/
def dev4_player_1 (X R : List ℚ) (c : ℚ) : Option Bool := do
  let x0 ← X[0]?
  let x1 ← X[1]?
  let x2 ← X[2]?
  let x3 ← X[3]?
  let r0 ← R[0]?
  let r1 ← R[1]?
  if x0 ≠ x1 then
    let payoff := (x0 + x1) / 2 - c * (x0 - r0) ^ 2
    if (1 - x3) - c * (x3 - r0) ^ 2 > payoff then pure true
    else right_gap_dev X c r0 payoff (List.range' 1 2)
  else
    let payoff := (x0 + x2) / 4 - c * (x0 - r0) ^ 2
    if (1 - x3) - c * (x3 - r0) ^ 2 > payoff then pure true
    else if x2 ≠ x3 ∧ (x3 - x2) / 2 - c * (x2 - r0) ^ 2 > payoff then pure true
    else
      let payoff2 := (x0 + x2) / 4 - c * (x0 - r1) ^ 2
      if (1 - x3) - c * (x3 - r1) ^ 2 > payoff2 then pure true
      else if x2 ≠ x3 ∧ (x3 - x2) / 2 - c * (x2 - r1) ^ 2 > payoff2 then pure true
      else pure false

/-- Embeds the "Deviations of Player 4" section of `equilibrium_4_players`
(lines 205-245). -/
def dev4_player_4 (X R : List ℚ) (c : ℚ) : Option Bool := do
  let x0 ← X[0]?
  let x1 ← X[1]?
  let x2 ← X[2]?
  let x3 ← X[3]?
  let r2 ← R[2]?
  let r3 ← R[3]?
  if x3 ≠ x2 then
    let payoff := (1 - (x3 + x2) / 2) - c * (x3 - r3) ^ 2
    if x0 - c * (x0 - r3) ^ 2 > payoff then pure true
    else left_gap_dev X c r3 payoff (List.range' 1 2)
  else
    let payoff := (1 / 2 - (x3 + x1) / 4) - c * (x3 - r3) ^ 2
    if x0 - c * (x0 - r3) ^ 2 > payoff then pure true
    else if x1 ≠ x0 ∧ (x1 - x0) / 2 - c * (x1 - r3) ^ 2 > payoff then pure true
    else
      let payoff2 := (1 / 2 - (x3 + x1) / 4) - c * (x3 - r2) ^ 2
      if x0 - c * (x0 - r2) ^ 2 > payoff2 then pure true
      else if x1 ≠ x0 ∧ (x1 - x0) / 2 - c * (x1 - r2) ^ 2 > payoff2 then pure true
      else pure false

/-- Embeds the body of `equilibrium_4_players` after its sorting step
(lines 149-281), including the early `return("Eq")` when the candidate is
exactly `[0.25, 0.25, 0.75, 0.75]` (lines 160-161). -/
def equilibrium_4_players_sorted (R : List ℚ) (c : ℚ) : Option String := do
  let X ← Eq_candidate_4_players R c
  let δ ← delta_distance c
  let x0 ← X[0]?
  let x1 ← X[1]?
  let x2 ← X[2]?
  let x3 ← X[3]?
  let r0 ← R[0]?
  let r1 ← R[1]?
  let r2 ← R[2]?
  let r3 ← R[3]?
  if x0 = x1 ∧ (x0 < r1 ∨ x0 > r0 + δ) then pure "No Eq"
  else if x2 = x3 ∧ (x3 < r3 - δ ∨ r2 < x3) then pure "No Eq"
  else if X = [1 / 4, 1 / 4, 3 / 4, 3 / 4] then pure "Eq"
  else do
    let b1 ← dev4_player_1 X R c
    if b1 then pure "No Eq" else do
      let b4 ← dev4_player_4 X R c
      if b4 then pure "No Eq" else do
        let bi ← dev_interior X R c 4 (List.range' 1 2)
        if bi then pure "No Eq" else pure "Eq"

/-- Embeds `equilibrium_4_players`: sorts the reputation profile, then runs the
verification body. -/
def equilibrium_4_players (R : List ℚ) (c : ℚ) : Option String :=
  equilibrium_4_players_sorted (R.mergeSort (fun a b => a ≤ b)) c

/-! ## General case (`location_games_with_reputation_n_players.py`) -/

/-- Embeds the final loop of `Eq_candidate_n_players` (lines 104-108): each
interior slot still holding the sentinel `0` is filled with the player's own
reputation, by in-place assignment. -/
def fill_interior (R : List ℚ) : List ℚ → List Nat → Option (List ℚ)
  | X, [] => pure X
  | X, i :: is => do
    let xi ← X[i]?
    if xi = 0 then do
      let ri ← R[i]?
      fill_interior R (X.set i ri) is
    else fill_interior R X is

/-- Embeds `Eq_candidate_n_players` (lines 64-110): peripheral placement or
clustering at each end of the sorted profile, then the interior fill loop. -/
def Eq_candidate_n_players (R : List ℚ) (c : ℚ) : Option (List ℚ) := do
  let nb_players := R.length
  let X0 := List.replicate nb_players (0 : ℚ)
  let δ ← delta_distance c
  let r0 ← R[0]?
  let r1 ← R[1]?
  let X1 ←
    if r0 + δ < r1 then pure (X0.set 0 (r0 + δ))
    else do
      let r2 ← R[2]?
      pure ((X0.set 0 (r2 / 3)).set 1 (r2 / 3))
  let rn1 ← R[nb_players - 1]?
  let rn2 ← R[nb_players - 2]?
  let X2 ←
    if rn1 - δ > rn2 then pure (X1.set (nb_players - 1) (rn1 - δ))
    else do
      let rn3 ← R[nb_players - 3]?
      pure ((X1.set (nb_players - 1) ((2 + rn3) / 3)).set (nb_players - 2) ((2 + rn3) / 3))
  fill_interior R X2 (List.range' 1 (nb_players - 2))

/-- Embeds the "Deviations of Player 1" section of `equilibrium_n_players`
(lines 152-199): player 1 alone, or players 1 and 2 when paired. -/
def dev_player_1 (X R : List ℚ) (c : ℚ) (n : Nat) : Option Bool := do
  let x0 ← X[0]?
  let x1 ← X[1]?
  let r0 ← R[0]?
  let xn1 ← X[n - 1]?
  if x0 ≠ x1 then
    let payoff := (x0 + x1) / 2 - c * (x0 - r0) ^ 2
    if (1 - xn1) - c * (xn1 - r0) ^ 2 > payoff then pure true
    else right_gap_dev X c r0 payoff (List.range' 1 (n - 2))
  else do
    let x2 ← X[2]?
    let r1 ← R[1]?
    let payoff := (x0 + x2) / 4 - c * (x0 - r0) ^ 2
    if (1 - xn1) - c * (xn1 - r0) ^ 2 > payoff then pure true
    else do
      let b ← right_gap_dev X c r0 payoff (List.range' 2 (n - 3))
      if b then pure true
      else
        let payoff2 := (x0 + x2) / 4 - c * (x0 - r1) ^ 2
        if (1 - xn1) - c * (xn1 - r1) ^ 2 > payoff2 then pure true
        else right_gap_dev X c r1 payoff2 (List.range' 2 (n - 3))

/-- Embeds the "Deviations of Player n" section of `equilibrium_n_players`
(lines 201-250): player n alone, or players n and n-1 when paired. -/
def dev_player_n (X R : List ℚ) (c : ℚ) (n : Nat) : Option Bool := do
  let xn1 ← X[n - 1]?
  let xn2 ← X[n - 2]?
  let rn1 ← R[n - 1]?
  let x0 ← X[0]?
  if xn1 ≠ xn2 then
    let payoff := (1 - (xn1 + xn2) / 2) - c * (xn1 - rn1) ^ 2
    if x0 - c * (x0 - rn1) ^ 2 > payoff then pure true
    else left_gap_dev X c rn1 payoff (List.range' 1 (n - 2))
  else do
    let xn3 ← X[n - 3]?
    let rn2 ← R[n - 2]?
    let payoff := (1 / 2 - (xn1 + xn3) / 4) - c * (xn1 - rn1) ^ 2
    if x0 - c * (x0 - rn1) ^ 2 > payoff then pure true
    else do
      let b ← left_gap_dev X c rn1 payoff (List.range' 1 (n - 3))
      if b then pure true
      else
        let payoff2 := (1 / 2 - (xn1 + xn3) / 4) - c * (xn1 - rn2) ^ 2
        if x0 - c * (x0 - rn2) ^ 2 > payoff2 then pure true
        else left_gap_dev X c rn2 payoff2 (List.range' 1 (n - 3))

/-- Embeds the body of `equilibrium_n_players` after its sorting step
(lines 139-286): candidate construction, the two cluster-consistency checks,
then the deviation sections in source order. -/
def equilibrium_n_players_sorted (R : List ℚ) (c : ℚ) : Option String := do
  let X ← Eq_candidate_n_players R c
  let nb_players := X.length
  let δ ← delta_distance c
  let x0 ← X[0]?
  let x1 ← X[1]?
  let xn2 ← X[nb_players - 2]?
  let xn1 ← X[nb_players - 1]?
  let r0 ← R[0]?
  let r1 ← R[1]?
  let rn2 ← R[nb_players - 2]?
  let rn1 ← R[nb_players - 1]?
  if x0 = x1 ∧ (x0 < r1 ∨ x0 > r0 + δ) then pure "No Eq"
  else if xn2 = xn1 ∧ (xn1 < rn1 - δ ∨ rn2 < xn1) then pure "No Eq"
  else do
    let b1 ← dev_player_1 X R c nb_players
    if b1 then pure "No Eq" else do
      let bn ← dev_player_n X R c nb_players
      if bn then pure "No Eq" else do
        let bi ← dev_interior X R c nb_players (List.range' 1 (nb_players - 2))
        if bi then pure "No Eq" else pure "Eq"

/-- Embeds `equilibrium_n_players`: sorts the reputation profile, then runs the
verification body. -/
def equilibrium_n_players (R : List ℚ) (c : ℚ) : Option String :=
  equilibrium_n_players_sorted (R.mergeSort (fun a b => a ≤ b)) c

/-! ## Sorting infrastructure -/

/-- The Boolean order used by the embedded sorting step is transitive and
total, so `mergeSort` output is `Sorted`. -/
theorem sorted_mergeSort_rat (l : List ℚ) :
    List.Sorted (fun a b : ℚ => a ≤ b) (l.mergeSort (fun a b => a ≤ b)) := by
  have htrans : ∀ a b c : ℚ, decide (a ≤ b) = true → decide (b ≤ c) = true →
      decide (a ≤ c) = true := fun a b c hab hbc =>
    decide_eq_true (le_trans (of_decide_eq_true hab) (of_decide_eq_true hbc))
  have htotal : ∀ a b : ℚ, (decide (a ≤ b) || decide (b ≤ a)) = true := fun a b => by
    rcases le_total a b with h | h <;> simp [h]
  have h : List.Pairwise (fun a b : ℚ => decide (a ≤ b) = true)
      (l.mergeSort (fun a b => a ≤ b)) :=
    List.sorted_mergeSort htrans htotal l
  exact h.imp fun hab => of_decide_eq_true hab

/-- Sorting an already sorted rational list changes nothing. -/
theorem mergeSort_eq_self {l : List ℚ} (h : List.Sorted (fun a b : ℚ => a ≤ b) l) :
    l.mergeSort (fun a b => a ≤ b) = l :=
  List.mergeSort_of_sorted (h.imp fun hab => by simpa using hab)

/-- Two permutations of the same multiset of rationals have the same sorted
form. -/
theorem mergeSort_perm_congr {R R' : List ℚ} (h : R.Perm R') :
    R.mergeSort (fun a b => a ≤ b) = R'.mergeSort (fun a b => a ≤ b) := by
  refine List.eq_of_perm_of_sorted
    ((List.mergeSort_perm R _).trans (h.trans (List.mergeSort_perm R' _).symm))
    (sorted_mergeSort_rat R) (sorted_mergeSort_rat R')

/-! ## Claim theorems -/

/-- C7: for every c > 0, `delta_distance` returns exactly `1/(4c)`, and the
returned value is strictly decreasing in c. -/
theorem delta_distance_formula_and_antitone :
    (∀ c : ℚ, 0 < c → delta_distance c = some (1 / (4 * c))) ∧
    (∀ c1 c2 d1 d2 : ℚ, 0 < c1 → c1 < c2 →
      delta_distance c1 = some d1 → delta_distance c2 = some d2 → d2 < d1) := by
  have hval : ∀ c : ℚ, 0 < c → delta_distance c = some (1 / (4 * c)) := by
    intro c hc
    rw [delta_distance, if_neg (by positivity)]
  refine ⟨hval, fun c1 c2 d1 d2 hc1 h12 hd1 hd2 => ?_⟩
  have h2 : (0 : ℚ) < c2 := lt_trans hc1 h12
  rw [hval c1 hc1] at hd1
  rw [hval c2 h2] at hd2
  obtain rfl : d1 = 1 / (4 * c1) := (Option.some_injective _ hd1).symm
  obtain rfl : d2 = 1 / (4 * c2) := (Option.some_injective _ hd2).symm
  have h4 : (0 : ℚ) < 4 * c1 := by positivity
  exact one_div_lt_one_div_of_lt h4 (by linarith)

/-- C7 witness: instantiation at c = 1 and at the pair c1 = 1 < c2 = 2. -/
theorem delta_distance_formula_and_antitone_witness :
    delta_distance 1 = some (1 / 4) ∧ ((1 : ℚ) / 8 < 1 / 4) :=
  ⟨by simpa using delta_distance_formula_and_antitone.1 1 one_pos,
    delta_distance_formula_and_antitone.2 1 2 (1 / 4) (1 / 8) one_pos one_lt_two
      (by norm_num [delta_distance]) (by norm_num [delta_distance])⟩

/-- C8: on R = [0, 1] with c = 1 the two-player verifier computes δ = 1/4,
takes the separated branch (since 1 - 0 is not < 2δ), places the candidate at
X = [0 + δ, 1 - δ] = [1/4, 3/4], and returns "Eq". -/
theorem two_player_separated_example :
    delta_distance 1 = some (1 / 4) ∧
    ¬((1 : ℚ) - 0 < 2 * (1 / 4)) ∧
    (0 : ℚ) + 1 / 4 = 1 / 4 ∧ (1 : ℚ) - 1 / 4 = 3 / 4 ∧
    equilibrium_2_players [0, 1] 1 = some "Eq" := by
  refine ⟨by norm_num [delta_distance], by norm_num, by norm_num, by norm_num, ?_⟩
  rw [equilibrium_2_players, mergeSort_eq_self (by simp)]
  norm_num [equilibrium_2_players_sorted, delta_distance]

/-- C6: every verifier verdict is invariant under permuting the reputation
profile, because the profile is sorted before any computation. -/
theorem verdict_perm_invariant (R R' : List ℚ) (c : ℚ) (h : R.Perm R') :
    equilibrium_2_players R c = equilibrium_2_players R' c ∧
    equilibrium_3_players R c = equilibrium_3_players R' c ∧
    equilibrium_4_players R c = equilibrium_4_players R' c ∧
    equilibrium_n_players R c = equilibrium_n_players R' c := by
  have hs := mergeSort_perm_congr h
  exact ⟨by rw [equilibrium_2_players, equilibrium_2_players, hs],
    by rw [equilibrium_3_players, equilibrium_3_players, hs],
    by rw [equilibrium_4_players, equilibrium_4_players, hs],
    by rw [equilibrium_n_players, equilibrium_n_players, hs]⟩

/-- C6 witness: instantiation at the transposed pair [1/2, 0] ~ [0, 1/2]. -/
theorem verdict_perm_invariant_witness :
    equilibrium_2_players [1 / 2, 0] 1 = equilibrium_2_players [0, 1 / 2] 1 ∧
    equilibrium_3_players [1 / 2, 0] 1 = equilibrium_3_players [0, 1 / 2] 1 ∧
    equilibrium_4_players [1 / 2, 0] 1 = equilibrium_4_players [0, 1 / 2] 1 ∧
    equilibrium_n_players [1 / 2, 0] 1 = equilibrium_n_players [0, 1 / 2] 1 :=
  verdict_perm_invariant [1 / 2, 0] [0, 1 / 2] 1 (List.Perm.swap 0 (1 / 2) [])

/-- C1 counterexample: at R = [1/4, 3/4] with c = 1 the two-player verifier is
in the separated branch (3/4 - 1/4 is not < 2δ with δ = 1/4), the candidate is
X = [1/2, 1/2], each player's unique alternative payoff exactly equals its
current payoff, yet the verdict is "No Eq" — so exact equality of a deviation
payoff with the current payoff does cause the NoEquilibrium verdict here,
refuting the claim. -/
theorem equilibrium_2_players_tie_gives_NoEq :
    delta_distance 1 = some (1 / 4) ∧
    ¬((3 : ℚ) / 4 - 1 / 4 < 2 * (1 / 4)) ∧
    (1 : ℚ) / 4 + 1 / 4 = 1 / 2 ∧ (3 : ℚ) / 4 - 1 / 4 = 1 / 2 ∧
    1 - (1 / 2 : ℚ) - 1 * (1 / 2 - 1 / 4) ^ 2 =
      (1 / 2 + 1 / 2 : ℚ) / 2 - 1 * (1 / 2 - 1 / 4) ^ 2 ∧
    (1 / 2 : ℚ) - 1 * (1 / 2 - 3 / 4) ^ 2 =
      1 - (1 / 2 + 1 / 2 : ℚ) / 2 - 1 * (1 / 2 - 3 / 4) ^ 2 ∧
    equilibrium_2_players [1 / 4, 3 / 4] 1 = some "No Eq" := by
  refine ⟨by norm_num [delta_distance], by norm_num, by norm_num, by norm_num,
    by norm_num, by norm_num, ?_⟩
  rw [equilibrium_2_players, mergeSort_eq_self (by norm_num)]
  norm_num [equilibrium_2_players_sorted, delta_distance]

/-- C1 as amended: in the separated branch of the two-player verifier the
verdict is "Eq" exactly when both deviation payoffs are strictly smaller than
the corresponding current payoffs, so an exact tie yields "No Eq" there (the
n-player verifier instead compares with a strict `>`, so ties do not trigger
rejection in that file). -/
theorem equilibrium_2_players_separated_verdict (r0 r1 δ c : ℚ) (h01 : r0 ≤ r1)
    (hδ : delta_distance c = some δ) (hsep : ¬(r1 - r0 < 2 * δ)) :
    equilibrium_2_players [r0, r1] c =
      some (if 1 - (r1 - δ) - c * ((r1 - δ) - r0) ^ 2 <
              ((r0 + δ) + (r1 - δ)) / 2 - c * ((r0 + δ) - r0) ^ 2 ∧
            (r0 + δ) - c * ((r0 + δ) - r1) ^ 2 <
              1 - ((r0 + δ) + (r1 - δ)) / 2 - c * ((r1 - δ) - r1) ^ 2
            then "Eq" else "No Eq") := by
  rw [equilibrium_2_players, mergeSort_eq_self (by simp [h01])]
  rw [equilibrium_2_players_sorted, hδ]
  simp only [Option.bind_eq_bind, Option.some_bind, List.getElem?_cons_zero,
    List.getElem?_cons_succ]
  rw [if_neg hsep]
  split
  · rfl
  · rfl

/-- C1 amended-claim witness: instantiation at R = [0, 1], c = 1. -/
theorem equilibrium_2_players_separated_verdict_witness :
    equilibrium_2_players [0, 1] 1 =
      some (if 1 - ((1 : ℚ) - 1 / 4) - 1 * (((1 : ℚ) - 1 / 4) - 0) ^ 2 <
              ((0 + 1 / 4 : ℚ) + (1 - 1 / 4)) / 2 - 1 * ((0 + 1 / 4 : ℚ) - 0) ^ 2 ∧
            (0 + 1 / 4 : ℚ) - 1 * ((0 + 1 / 4 : ℚ) - 1) ^ 2 <
              1 - ((0 + 1 / 4 : ℚ) + (1 - 1 / 4)) / 2 - 1 * (((1 : ℚ) - 1 / 4) - 1) ^ 2
            then "Eq" else "No Eq") :=
  equilibrium_2_players_separated_verdict 0 1 (1 / 4) 1 (by norm_num)
    (by norm_num [delta_distance]) (by norm_num)

/-! ## List access helper lemmas -/

/-- Reading back the value just written by `List.set`. -/
theorem getD_set_self_rat {l : List ℚ} {i : Nat} (h : i < l.length) (a : ℚ) :
    (l.set i a).getD i 0 = a := by
  simp [List.getD_eq_getElem?_getD, List.getElem?_set_self h]

/-- Reading any other position after a `List.set`. -/
theorem getD_set_ne_rat {l : List ℚ} {i j : Nat} (h : i ≠ j) (a : ℚ) :
    (l.set i a).getD j 0 = l.getD j 0 := by
  simp [List.getD_eq_getElem?_getD, List.getElem?_set_ne h]

/-- Every read of the all-zero initial candidate yields 0. -/
theorem getD_replicate_zero {n i : Nat} : (List.replicate n (0 : ℚ)).getD i 0 = 0 := by
  rcases Nat.lt_or_ge i n with h | h
  · simp [List.getD_eq_getElem?_getD, List.getElem?_replicate, h]
  · simp [List.getD_eq_getElem?_getD, List.getElem?_replicate, Nat.not_lt.mpr h]

/-- In-bounds `getD` agrees with `getElem`. -/
theorem getD_eq_getElem_rat {l : List ℚ} {i : Nat} (h : i < l.length) :
    l.getD i 0 = l[i] := by
  simp [List.getD_eq_getElem?_getD, List.getElem?_eq_getElem h]

/-- Entries of a sorted rational list are ordered along indices. -/
theorem sorted_getD_le {l : List ℚ} (hs : List.Sorted (fun a b : ℚ => a ≤ b) l)
    {i j : Nat} (hij : i ≤ j) (hj : j < l.length) : l.getD i 0 ≤ l.getD j 0 := by
  rcases Nat.eq_or_lt_of_le hij with rfl | hlt
  · exact le_refl _
  · have hi : i < l.length := lt_trans hlt hj
    rw [getD_eq_getElem_rat hi, getD_eq_getElem_rat hj]
    exact (List.pairwise_iff_getElem.mp hs) i j hi hj hlt

/-- Membership bound for an in-bounds entry. -/
theorem getD_mem_of_lt {l : List ℚ} {i : Nat} (h : i < l.length) : l.getD i 0 ∈ l := by
  rw [getD_eq_getElem_rat h]
  exact List.getElem_mem h

/-! ## Characterization of the n-player candidate builder -/

/-- The interior fill loop of `Eq_candidate_n_players` succeeds when every
visited index is in bounds, keeps the length, and pointwise replaces exactly
the visited entries that still hold the sentinel 0 with the corresponding
reputation. -/
theorem fill_interior_spec (R : List ℚ) :
    ∀ (is : List Nat) (X : List ℚ), (∀ i ∈ is, i < X.length ∧ i < R.length) →
      ∃ Y, fill_interior R X is = some Y ∧ Y.length = X.length ∧
        ∀ j, Y.getD j 0 =
          if j ∈ is ∧ X.getD j 0 = 0 then R.getD j 0 else X.getD j 0 := by
  intro is
  induction is with
  | nil =>
    intro X _
    exact ⟨X, rfl, rfl, fun j => by simp⟩
  | cons i is ih =>
    intro X h
    have hiX : i < X.length := (h i (List.mem_cons_self i is)).1
    have hiR : i < R.length := (h i (List.mem_cons_self i is)).2
    rw [fill_interior]
    rw [List.getElem?_eq_getElem hiX]
    simp only [Option.bind_eq_bind, Option.some_bind]
    by_cases hx : X[i] = 0
    · rw [if_pos hx, List.getElem?_eq_getElem hiR]
      simp only [Option.bind_eq_bind, Option.some_bind]
      obtain ⟨Y, hY, hlen, hspec⟩ := ih (X.set i R[i])
        (fun j hj => by
          have := h j (List.mem_cons_of_mem i hj)
          simpa [List.length_set] using this)
      refine ⟨Y, hY, by rw [hlen, List.length_set], fun j => ?_⟩
      rw [hspec j]
      by_cases hji : j = i
      · subst hji
        rw [getD_set_self_rat hiX]
        have hXj : X.getD j 0 = 0 := by rw [getD_eq_getElem_rat hiX]; exact hx
        have hRj : R.getD j 0 = R[j] := getD_eq_getElem_rat hiR
        by_cases hand : j ∈ is ∧ R[j] = (0 : ℚ)
        · rw [if_pos hand, if_pos ⟨List.mem_cons_self j is, hXj⟩]
        · rw [if_neg hand, if_pos ⟨List.mem_cons_self j is, hXj⟩, hRj]
      · rw [getD_set_ne_rat (fun hij => hji hij.symm)]
        have hmemiff : j ∈ is ∧ X.getD j 0 = 0 ↔ j ∈ i :: is ∧ X.getD j 0 = 0 := by
          rw [List.mem_cons]
          exact and_congr_left fun _ => (or_iff_right hji).symm
        exact if_congr hmemiff rfl rfl
    · rw [if_neg hx]
      obtain ⟨Y, hY, hlen, hspec⟩ := ih X (fun j hj => h j (List.mem_cons_of_mem i hj))
      refine ⟨Y, hY, hlen, fun j => ?_⟩
      rw [hspec j]
      by_cases hji : j = i
      · subst hji
        have hXj : ¬(X.getD j 0 = 0) := by rw [getD_eq_getElem_rat hiX]; exact hx
        rw [if_neg (fun hand => hXj hand.2), if_neg (fun hand => hXj hand.2)]
      · have hmemiff : j ∈ is ∧ X.getD j 0 = 0 ↔ j ∈ i :: is ∧ X.getD j 0 = 0 := by
          rw [List.mem_cons]
          exact and_congr_left fun _ => (or_iff_right hji).symm
        exact if_congr hmemiff rfl rfl

/-- Full pointwise characterization of `Eq_candidate_n_players` on profiles of
length at least 5: the builder succeeds, keeps the length, places the
peripheral players according to the separation/clustering case split, and
fills every interior slot (which still holds the sentinel 0) with the
player's own reputation. -/
theorem Eq_candidate_n_players_spec (R : List ℚ) (c δ : ℚ)
    (hδ : delta_distance c = some δ) (hn : 5 ≤ R.length) :
    ∃ X, Eq_candidate_n_players R c = some X ∧ X.length = R.length ∧
      (R.getD 0 0 + δ < R.getD 1 0 →
        X.getD 0 0 = R.getD 0 0 + δ ∧ X.getD 1 0 = R.getD 1 0) ∧
      (¬(R.getD 0 0 + δ < R.getD 1 0) →
        X.getD 0 0 = R.getD 2 0 / 3 ∧
        X.getD 1 0 = if R.getD 2 0 / 3 = 0 then R.getD 1 0 else R.getD 2 0 / 3) ∧
      (R.getD (R.length - 1) 0 - δ > R.getD (R.length - 2) 0 →
        X.getD (R.length - 1) 0 = R.getD (R.length - 1) 0 - δ ∧
        X.getD (R.length - 2) 0 = R.getD (R.length - 2) 0) ∧
      (¬(R.getD (R.length - 1) 0 - δ > R.getD (R.length - 2) 0) →
        X.getD (R.length - 1) 0 = (2 + R.getD (R.length - 3) 0) / 3 ∧
        X.getD (R.length - 2) 0 =
          if (2 + R.getD (R.length - 3) 0) / 3 = 0 then R.getD (R.length - 2) 0
          else (2 + R.getD (R.length - 3) 0) / 3) ∧
      (∀ i, 2 ≤ i → i ≤ R.length - 3 → X.getD i 0 = R.getD i 0) := by
  have h0 : 0 < R.length := by omega
  have h1 : 1 < R.length := by omega
  have h2 : 2 < R.length := by omega
  have hn1 : R.length - 1 < R.length := by omega
  have hn2 : R.length - 2 < R.length := by omega
  have hn3 : R.length - 3 < R.length := by omega
  have hmem0 : (0 : ℕ) ∉ List.range' 1 (R.length - 2) := by
    intro hm; have := List.mem_range'_1.mp hm; omega
  have hmem1 : (1 : ℕ) ∈ List.range' 1 (R.length - 2) :=
    List.mem_range'_1.mpr ⟨le_refl 1, by omega⟩
  have hmemn1 : (R.length - 1) ∉ List.range' 1 (R.length - 2) := by
    intro hm; have := List.mem_range'_1.mp hm; omega
  have hmemn2 : (R.length - 2) ∈ List.range' 1 (R.length - 2) :=
    List.mem_range'_1.mpr ⟨by omega, by omega⟩
  simp only [Eq_candidate_n_players, hδ, Option.bind_eq_bind, Option.some_bind,
    Option.pure_def, List.getElem?_eq_getElem h0, List.getElem?_eq_getElem h1,
    List.getElem?_eq_getElem h2, List.getElem?_eq_getElem hn1,
    List.getElem?_eq_getElem hn2, List.getElem?_eq_getElem hn3]
  by_cases hL : R[0] + δ < R[1]
  · rw [if_pos hL]
    by_cases hR : R[R.length - 1] - δ > R[R.length - 2]
    · rw [if_pos hR]
      have e0 : (((List.replicate R.length (0 : ℚ)).set 0 (R[0] + δ)).set
          (R.length - 1) (R[R.length - 1] - δ)).getD 0 0 = R[0] + δ := by
        rw [getD_set_ne_rat (by omega), getD_set_self_rat (by simpa using h0)]
      have e1 : (((List.replicate R.length (0 : ℚ)).set 0 (R[0] + δ)).set
          (R.length - 1) (R[R.length - 1] - δ)).getD 1 0 = 0 := by
        rw [getD_set_ne_rat (by omega), getD_set_ne_rat (by omega), getD_replicate_zero]
      have en1 : (((List.replicate R.length (0 : ℚ)).set 0 (R[0] + δ)).set
          (R.length - 1) (R[R.length - 1] - δ)).getD (R.length - 1) 0 =
          R[R.length - 1] - δ := by
        rw [getD_set_self_rat (by simp only [List.length_set, List.length_replicate]; omega)]
      have en2 : (((List.replicate R.length (0 : ℚ)).set 0 (R[0] + δ)).set
          (R.length - 1) (R[R.length - 1] - δ)).getD (R.length - 2) 0 = 0 := by
        rw [getD_set_ne_rat (by omega), getD_set_ne_rat (by omega), getD_replicate_zero]
      have eint : ∀ i, 2 ≤ i → i ≤ R.length - 3 →
          (((List.replicate R.length (0 : ℚ)).set 0 (R[0] + δ)).set
            (R.length - 1) (R[R.length - 1] - δ)).getD i 0 = 0 := by
        intro i hi1 hi2
        rw [getD_set_ne_rat (by omega), getD_set_ne_rat (by omega), getD_replicate_zero]
      obtain ⟨Y, hY, hYlen, hYspec⟩ := fill_interior_spec R (List.range' 1 (R.length - 2))
        (((List.replicate R.length (0 : ℚ)).set 0 (R[0] + δ)).set
          (R.length - 1) (R[R.length - 1] - δ))
        (fun i hi => by
          have := List.mem_range'_1.mp hi
          simp only [List.length_set, List.length_replicate]
          omega)
      refine ⟨Y, hY, ?_, ?_, ?_, ?_, ?_, ?_⟩
      · rw [hYlen]; simp
      · intro _
        constructor
        · rw [hYspec 0, if_neg (fun hand => hmem0 hand.1), e0, getD_eq_getElem_rat h0]
        · rw [hYspec 1, if_pos ⟨hmem1, e1⟩]
      · intro hcon; rw [getD_eq_getElem_rat h0, getD_eq_getElem_rat h1] at hcon; exact absurd hL hcon
      · intro _
        constructor
        · rw [hYspec (R.length - 1), if_neg (fun hand => hmemn1 hand.1), en1,
            getD_eq_getElem_rat hn1]
        · rw [hYspec (R.length - 2), if_pos ⟨hmemn2, en2⟩]
      · intro hcon; rw [getD_eq_getElem_rat hn1, getD_eq_getElem_rat hn2] at hcon; exact absurd hR hcon
      · intro i hi1 hi2
        rw [hYspec i, if_pos ⟨List.mem_range'_1.mpr ⟨by omega, by omega⟩, eint i hi1 hi2⟩,
          getD_eq_getElem_rat (by omega : i < R.length)]
    · rw [if_neg hR]
      have e0 : ((((List.replicate R.length (0 : ℚ)).set 0 (R[0] + δ)).set
          (R.length - 1) ((2 + R[R.length - 3]) / 3)).set
          (R.length - 2) ((2 + R[R.length - 3]) / 3)).getD 0 0 = R[0] + δ := by
        rw [getD_set_ne_rat (by omega), getD_set_ne_rat (by omega),
          getD_set_self_rat (by simpa using h0)]
      have e1 : ((((List.replicate R.length (0 : ℚ)).set 0 (R[0] + δ)).set
          (R.length - 1) ((2 + R[R.length - 3]) / 3)).set
          (R.length - 2) ((2 + R[R.length - 3]) / 3)).getD 1 0 = 0 := by
        rw [getD_set_ne_rat (by omega), getD_set_ne_rat (by omega),
          getD_set_ne_rat (by omega), getD_replicate_zero]
      have en1 : ((((List.replicate R.length (0 : ℚ)).set 0 (R[0] + δ)).set
          (R.length - 1) ((2 + R[R.length - 3]) / 3)).set
          (R.length - 2) ((2 + R[R.length - 3]) / 3)).getD (R.length - 1) 0 =
          (2 + R[R.length - 3]) / 3 := by
        rw [getD_set_ne_rat (by omega),
          getD_set_self_rat (by simp only [List.length_set, List.length_replicate]; omega)]
      have en2 : ((((List.replicate R.length (0 : ℚ)).set 0 (R[0] + δ)).set
          (R.length - 1) ((2 + R[R.length - 3]) / 3)).set
          (R.length - 2) ((2 + R[R.length - 3]) / 3)).getD (R.length - 2) 0 =
          (2 + R[R.length - 3]) / 3 := by
        rw [getD_set_self_rat (by simp only [List.length_set, List.length_replicate]; omega)]
      have eint : ∀ i, 2 ≤ i → i ≤ R.length - 3 →
          ((((List.replicate R.length (0 : ℚ)).set 0 (R[0] + δ)).set
            (R.length - 1) ((2 + R[R.length - 3]) / 3)).set
            (R.length - 2) ((2 + R[R.length - 3]) / 3)).getD i 0 = 0 := by
        intro i hi1 hi2
        rw [getD_set_ne_rat (by omega), getD_set_ne_rat (by omega),
          getD_set_ne_rat (by omega), getD_replicate_zero]
      obtain ⟨Y, hY, hYlen, hYspec⟩ := fill_interior_spec R (List.range' 1 (R.length - 2))
        ((((List.replicate R.length (0 : ℚ)).set 0 (R[0] + δ)).set
          (R.length - 1) ((2 + R[R.length - 3]) / 3)).set
          (R.length - 2) ((2 + R[R.length - 3]) / 3))
        (fun i hi => by
          have := List.mem_range'_1.mp hi
          simp only [List.length_set, List.length_replicate]
          omega)
      refine ⟨Y, hY, ?_, ?_, ?_, ?_, ?_, ?_⟩
      · rw [hYlen]; simp
      · intro _
        constructor
        · rw [hYspec 0, if_neg (fun hand => hmem0 hand.1), e0, getD_eq_getElem_rat h0]
        · rw [hYspec 1, if_pos ⟨hmem1, e1⟩]
      · intro hcon; rw [getD_eq_getElem_rat h0, getD_eq_getElem_rat h1] at hcon; exact absurd hL hcon
      · intro hcon; rw [getD_eq_getElem_rat hn1, getD_eq_getElem_rat hn2] at hcon; exact absurd hcon hR
      · intro _
        constructor
        · rw [hYspec (R.length - 1), if_neg (fun hand => hmemn1 hand.1), en1,
            getD_eq_getElem_rat hn3]
        · rw [hYspec (R.length - 2)]
          simp only [en2]
          rw [getD_eq_getElem_rat hn3]
          by_cases hz : (2 + R[R.length - 3]) / 3 = (0 : ℚ)
          · rw [if_pos ⟨hmemn2, hz⟩, if_pos hz]
          · rw [if_neg (fun hand => hz hand.2), if_neg hz]
      · intro i hi1 hi2
        rw [hYspec i, if_pos ⟨List.mem_range'_1.mpr ⟨by omega, by omega⟩, eint i hi1 hi2⟩,
          getD_eq_getElem_rat (by omega : i < R.length)]
  · rw [if_neg hL]
    by_cases hR : R[R.length - 1] - δ > R[R.length - 2]
    · rw [if_pos hR]
      have e0 : ((((List.replicate R.length (0 : ℚ)).set 0 (R[2] / 3)).set 1 (R[2] / 3)).set
          (R.length - 1) (R[R.length - 1] - δ)).getD 0 0 = R[2] / 3 := by
        rw [getD_set_ne_rat (by omega), getD_set_ne_rat (by omega),
          getD_set_self_rat (by simpa using h0)]
      have e1 : ((((List.replicate R.length (0 : ℚ)).set 0 (R[2] / 3)).set 1 (R[2] / 3)).set
          (R.length - 1) (R[R.length - 1] - δ)).getD 1 0 = R[2] / 3 := by
        rw [getD_set_ne_rat (by omega),
          getD_set_self_rat (by simp only [List.length_set, List.length_replicate]; omega)]
      have en1 : ((((List.replicate R.length (0 : ℚ)).set 0 (R[2] / 3)).set 1 (R[2] / 3)).set
          (R.length - 1) (R[R.length - 1] - δ)).getD (R.length - 1) 0 =
          R[R.length - 1] - δ := by
        rw [getD_set_self_rat (by simp only [List.length_set, List.length_replicate]; omega)]
      have en2 : ((((List.replicate R.length (0 : ℚ)).set 0 (R[2] / 3)).set 1 (R[2] / 3)).set
          (R.length - 1) (R[R.length - 1] - δ)).getD (R.length - 2) 0 = 0 := by
        rw [getD_set_ne_rat (by omega), getD_set_ne_rat (by omega),
          getD_set_ne_rat (by omega), getD_replicate_zero]
      have eint : ∀ i, 2 ≤ i → i ≤ R.length - 3 →
          ((((List.replicate R.length (0 : ℚ)).set 0 (R[2] / 3)).set 1 (R[2] / 3)).set
            (R.length - 1) (R[R.length - 1] - δ)).getD i 0 = 0 := by
        intro i hi1 hi2
        rw [getD_set_ne_rat (by omega), getD_set_ne_rat (by omega),
          getD_set_ne_rat (by omega), getD_replicate_zero]
      obtain ⟨Y, hY, hYlen, hYspec⟩ := fill_interior_spec R (List.range' 1 (R.length - 2))
        ((((List.replicate R.length (0 : ℚ)).set 0 (R[2] / 3)).set 1 (R[2] / 3)).set
          (R.length - 1) (R[R.length - 1] - δ))
        (fun i hi => by
          have := List.mem_range'_1.mp hi
          simp only [List.length_set, List.length_replicate]
          omega)
      refine ⟨Y, hY, ?_, ?_, ?_, ?_, ?_, ?_⟩
      · rw [hYlen]; simp
      · intro hcon; rw [getD_eq_getElem_rat h0, getD_eq_getElem_rat h1] at hcon; exact absurd hcon hL
      · intro _
        constructor
        · rw [hYspec 0, if_neg (fun hand => hmem0 hand.1), e0, getD_eq_getElem_rat h2]
        · rw [hYspec 1]
          simp only [e1]
          rw [getD_eq_getElem_rat h2]
          by_cases hz : R[2] / 3 = (0 : ℚ)
          · rw [if_pos ⟨hmem1, hz⟩, if_pos hz]
          · rw [if_neg (fun hand => hz hand.2), if_neg hz]
      · intro _
        constructor
        · rw [hYspec (R.length - 1), if_neg (fun hand => hmemn1 hand.1), en1,
            getD_eq_getElem_rat hn1]
        · rw [hYspec (R.length - 2), if_pos ⟨hmemn2, en2⟩]
      · intro hcon; rw [getD_eq_getElem_rat hn1, getD_eq_getElem_rat hn2] at hcon; exact absurd hR hcon
      · intro i hi1 hi2
        rw [hYspec i, if_pos ⟨List.mem_range'_1.mpr ⟨by omega, by omega⟩, eint i hi1 hi2⟩,
          getD_eq_getElem_rat (by omega : i < R.length)]
    · rw [if_neg hR]
      have e0 : (((((List.replicate R.length (0 : ℚ)).set 0 (R[2] / 3)).set 1 (R[2] / 3)).set
          (R.length - 1) ((2 + R[R.length - 3]) / 3)).set
          (R.length - 2) ((2 + R[R.length - 3]) / 3)).getD 0 0 = R[2] / 3 := by
        rw [getD_set_ne_rat (by omega), getD_set_ne_rat (by omega),
          getD_set_ne_rat (by omega), getD_set_self_rat (by simpa using h0)]
      have e1 : (((((List.replicate R.length (0 : ℚ)).set 0 (R[2] / 3)).set 1 (R[2] / 3)).set
          (R.length - 1) ((2 + R[R.length - 3]) / 3)).set
          (R.length - 2) ((2 + R[R.length - 3]) / 3)).getD 1 0 = R[2] / 3 := by
        rw [getD_set_ne_rat (by omega), getD_set_ne_rat (by omega),
          getD_set_self_rat (by simp only [List.length_set, List.length_replicate]; omega)]
      have en1 : (((((List.replicate R.length (0 : ℚ)).set 0 (R[2] / 3)).set 1 (R[2] / 3)).set
          (R.length - 1) ((2 + R[R.length - 3]) / 3)).set
          (R.length - 2) ((2 + R[R.length - 3]) / 3)).getD (R.length - 1) 0 =
          (2 + R[R.length - 3]) / 3 := by
        rw [getD_set_ne_rat (by omega),
          getD_set_self_rat (by simp only [List.length_set, List.length_replicate]; omega)]
      have en2 : (((((List.replicate R.length (0 : ℚ)).set 0 (R[2] / 3)).set 1 (R[2] / 3)).set
          (R.length - 1) ((2 + R[R.length - 3]) / 3)).set
          (R.length - 2) ((2 + R[R.length - 3]) / 3)).getD (R.length - 2) 0 =
          (2 + R[R.length - 3]) / 3 := by
        rw [getD_set_self_rat (by simp only [List.length_set, List.length_replicate]; omega)]
      have eint : ∀ i, 2 ≤ i → i ≤ R.length - 3 →
          (((((List.replicate R.length (0 : ℚ)).set 0 (R[2] / 3)).set 1 (R[2] / 3)).set
            (R.length - 1) ((2 + R[R.length - 3]) / 3)).set
            (R.length - 2) ((2 + R[R.length - 3]) / 3)).getD i 0 = 0 := by
        intro i hi1 hi2
        rw [getD_set_ne_rat (by omega), getD_set_ne_rat (by omega),
          getD_set_ne_rat (by omega), getD_set_ne_rat (by omega), getD_replicate_zero]
      obtain ⟨Y, hY, hYlen, hYspec⟩ := fill_interior_spec R (List.range' 1 (R.length - 2))
        (((((List.replicate R.length (0 : ℚ)).set 0 (R[2] / 3)).set 1 (R[2] / 3)).set
          (R.length - 1) ((2 + R[R.length - 3]) / 3)).set
          (R.length - 2) ((2 + R[R.length - 3]) / 3))
        (fun i hi => by
          have := List.mem_range'_1.mp hi
          simp only [List.length_set, List.length_replicate]
          omega)
      refine ⟨Y, hY, ?_, ?_, ?_, ?_, ?_, ?_⟩
      · rw [hYlen]; simp
      · intro hcon; rw [getD_eq_getElem_rat h0, getD_eq_getElem_rat h1] at hcon; exact absurd hcon hL
      · intro _
        constructor
        · rw [hYspec 0, if_neg (fun hand => hmem0 hand.1), e0, getD_eq_getElem_rat h2]
        · rw [hYspec 1]
          simp only [e1]
          rw [getD_eq_getElem_rat h2]
          by_cases hz : R[2] / 3 = (0 : ℚ)
          · rw [if_pos ⟨hmem1, hz⟩, if_pos hz]
          · rw [if_neg (fun hand => hz hand.2), if_neg hz]
      · intro hcon; rw [getD_eq_getElem_rat hn1, getD_eq_getElem_rat hn2] at hcon; exact absurd hcon hR
      · intro _
        constructor
        · rw [hYspec (R.length - 1), if_neg (fun hand => hmemn1 hand.1), en1,
            getD_eq_getElem_rat hn3]
        · rw [hYspec (R.length - 2)]
          simp only [en2]
          rw [getD_eq_getElem_rat hn3]
          by_cases hz : (2 + R[R.length - 3]) / 3 = (0 : ℚ)
          · rw [if_pos ⟨hmemn2, hz⟩, if_pos hz]
          · rw [if_neg (fun hand => hz hand.2), if_neg hz]
      · intro i hi1 hi2
        rw [hYspec i, if_pos ⟨List.mem_range'_1.mpr ⟨by omega, by omega⟩, eint i hi1 hi2⟩,
          getD_eq_getElem_rat (by omega : i < R.length)]

/-- C2 counterexample: on the sorted profile [1/2, 1/2, 1/2] (inside [0,1]^3)
with c = 1 > 0, the three-player candidate builder returns the error value
"No Eq" instead of a position vector. -/
theorem Eq_candidate_3_players_error_value :
    Eq_candidate_3_players [1 / 2, 1 / 2, 1 / 2] 1 = some (Sum.inr "No Eq") := by
  norm_num [Eq_candidate_3_players, delta_distance]

/-- C2 as amended: the 4-player and n-player candidate builders always return
a position vector of the same length as the profile, but the 3-player builder
returns the error value "No Eq" exactly when both peripheral clustering
conditions hold at once (R[0] + δ ≥ R[1] and R[2] - δ ≤ R[1]); otherwise it
too returns a length-3 vector. -/
theorem candidate_builders_length :
    (∀ r0 r1 r2 c δ : ℚ, delta_distance c = some δ →
      ((Eq_candidate_3_players [r0, r1, r2] c = some (Sum.inr "No Eq") ↔
          r0 + δ ≥ r1 ∧ r2 - δ ≤ r1) ∧
        (¬(r0 + δ ≥ r1 ∧ r2 - δ ≤ r1) →
          ∃ X, Eq_candidate_3_players [r0, r1, r2] c = some (Sum.inl X) ∧
            X.length = 3))) ∧
    (∀ r0 r1 r2 r3 c : ℚ, 0 < c →
      ∃ X, Eq_candidate_4_players [r0, r1, r2, r3] c = some X ∧ X.length = 4) ∧
    (∀ (R : List ℚ) (c : ℚ), 5 ≤ R.length → 0 < c →
      ∃ X, Eq_candidate_n_players R c = some X ∧ X.length = R.length) := by
  refine ⟨?_, ?_, ?_⟩
  · intro r0 r1 r2 c δ hδ
    have hunf : Eq_candidate_3_players [r0, r1, r2] c =
        (if r0 + δ < r1 ∧ r2 - δ > r1 then some (Sum.inl [r0 + δ, r1, r2 - δ])
         else if r0 + δ ≥ r1 ∧ r2 - δ > r1 then
           some (Sum.inl [(r2 - δ) / 3, (r2 - δ) / 3, r2 - δ])
         else if r2 - δ ≤ r1 ∧ r0 + δ < r1 then
           some (Sum.inl [r0 + δ, (r0 + δ + 2) / 3, (r0 + δ + 2) / 3])
         else some (Sum.inr "No Eq")) := by
      rw [Eq_candidate_3_players, hδ]
      simp only [Option.bind_eq_bind, Option.some_bind, List.getElem?_cons_zero,
        List.getElem?_cons_succ, Option.pure_def]
    rw [hunf]
    constructor
    · constructor
      · intro h
        split_ifs at h with h1 h2 h3
        · exact absurd h (by simp)
        · exact absurd h (by simp)
        · exact absurd h (by simp)
        · rcases lt_or_ge (r0 + δ) r1 with hlt | hge
          · rcases lt_or_ge r1 (r2 - δ) with hgt | hle
            · exact absurd ⟨hlt, hgt⟩ h1
            · exact absurd ⟨hle, hlt⟩ h3
          · refine ⟨hge, ?_⟩
            rcases lt_or_ge r1 (r2 - δ) with hgt | hle
            · exact absurd ⟨hge, hgt⟩ h2
            · exact hle
      · intro hand
        rw [if_neg (fun h => absurd h.1 (not_lt.mpr hand.1)),
          if_neg (fun h => absurd h.2 (not_lt.mpr hand.2)),
          if_neg (fun h => absurd h.2 (not_lt.mpr hand.1))]
    · intro hnot
      by_cases h1 : r0 + δ < r1 ∧ r2 - δ > r1
      · rw [if_pos h1]; exact ⟨_, rfl, rfl⟩
      · by_cases h2 : r0 + δ ≥ r1 ∧ r2 - δ > r1
        · rw [if_neg h1, if_pos h2]; exact ⟨_, rfl, rfl⟩
        · by_cases h3 : r2 - δ ≤ r1 ∧ r0 + δ < r1
          · rw [if_neg h1, if_neg h2, if_pos h3]; exact ⟨_, rfl, rfl⟩
          · exfalso
            apply hnot
            rcases lt_or_ge (r0 + δ) r1 with hlt | hge
            · rcases lt_or_ge r1 (r2 - δ) with hgt | hle
              · exact absurd ⟨hlt, hgt⟩ h1
              · exact absurd ⟨hle, hlt⟩ h3
            · refine ⟨hge, ?_⟩
              rcases lt_or_ge r1 (r2 - δ) with hgt | hle
              · exact absurd ⟨hge, hgt⟩ h2
              · exact hle
  · intro r0 r1 r2 r3 c hc
    have hδ : delta_distance c = some (1 / (4 * c)) := by
      rw [delta_distance, if_neg (by positivity)]
    rw [Eq_candidate_4_players, hδ]
    simp only [Option.bind_eq_bind, Option.some_bind, List.getElem?_cons_zero,
      List.getElem?_cons_succ, Option.pure_def]
    split_ifs <;> exact ⟨_, rfl, rfl⟩
  · intro R c hn hc
    have hδ : delta_distance c = some (1 / (4 * c)) := by
      rw [delta_distance, if_neg (by positivity)]
    obtain ⟨X, hX, hlen, -, -, -, -, -⟩ := Eq_candidate_n_players_spec R c _ hδ hn
    exact ⟨X, hX, hlen⟩

/-- C2 amended-claim witness: instantiations of the three parts at concrete
inputs. -/
theorem candidate_builders_length_witness :
    (∃ X, Eq_candidate_3_players [0, 1 / 2, 1] 1 = some (Sum.inl X) ∧
      X.length = 3) ∧
    (∃ X, Eq_candidate_4_players [0, 1 / 3, 2 / 3, 1] 1 = some X ∧ X.length = 4) ∧
    (∃ X, Eq_candidate_n_players [0, 1 / 4, 1 / 2, 3 / 4, 1] 1 = some X ∧
      X.length = 5) := by
  refine ⟨(candidate_builders_length.1 0 (1 / 2) 1 1 (1 / 4)
      (by norm_num [delta_distance])).2 (by norm_num),
    candidate_builders_length.2.1 0 (1 / 3) (2 / 3) 1 1 one_pos, ?_⟩
  have h := candidate_builders_length.2.2 [0, 1 / 4, 1 / 2, 3 / 4, 1] 1
    (by norm_num) one_pos
  simpa using h

/-- C3: on a sorted profile inside [0,1] with c > 0, every candidate vector
produced by the 3-, 4- or n-player builder is monotonically non-decreasing. -/
theorem candidates_monotone :
    (∀ r0 r1 r2 c δ X, delta_distance c = some δ →
      r0 ≤ r1 → r1 ≤ r2 → 0 ≤ r0 → r2 ≤ 1 →
      Eq_candidate_3_players [r0, r1, r2] c = some (Sum.inl X) →
      ∀ i, i + 1 < X.length → X.getD i 0 ≤ X.getD (i + 1) 0) ∧
    (∀ r0 r1 r2 r3 c δ X, delta_distance c = some δ →
      r0 ≤ r1 → r1 ≤ r2 → r2 ≤ r3 → 0 ≤ r0 → r3 ≤ 1 →
      Eq_candidate_4_players [r0, r1, r2, r3] c = some X →
      ∀ i, i + 1 < X.length → X.getD i 0 ≤ X.getD (i + 1) 0) ∧
    (∀ (R : List ℚ) (c : ℚ) X, 5 ≤ R.length → 0 < c →
      List.Sorted (fun a b : ℚ => a ≤ b) R → (∀ r ∈ R, 0 ≤ r ∧ r ≤ 1) →
      Eq_candidate_n_players R c = some X →
      ∀ i, i + 1 < X.length → X.getD i 0 ≤ X.getD (i + 1) 0) := by
  refine ⟨?_, ?_, ?_⟩
  · intro r0 r1 r2 c δ X hδ h01 h12 hlo hhi hX
    rw [Eq_candidate_3_players, hδ] at hX
    simp only [Option.bind_eq_bind, Option.some_bind, List.getElem?_cons_zero,
      List.getElem?_cons_succ, Option.pure_def] at hX
    split_ifs at hX with h1 h2 h3
    · simp only [Option.some.injEq, Sum.inl.injEq] at hX
      subst hX
      intro i hi
      simp only [List.length_cons, List.length_nil] at hi
      rcases i with _ | _ | i
      · simp only [List.getD_cons_zero, List.getD_cons_succ]
        linarith [h1.1]
      · simp only [List.getD_cons_zero, List.getD_cons_succ]
        linarith [h1.2]
      · omega
    · simp only [Option.some.injEq, Sum.inl.injEq] at hX
      subst hX
      intro i hi
      simp only [List.length_cons, List.length_nil] at hi
      rcases i with _ | _ | i
      · simp only [List.getD_cons_zero, List.getD_cons_succ]; exact le_refl _
      · simp only [List.getD_cons_zero, List.getD_cons_succ]
        linarith [h2.2]
      · omega
    · simp only [Option.some.injEq, Sum.inl.injEq] at hX
      subst hX
      intro i hi
      simp only [List.length_cons, List.length_nil] at hi
      rcases i with _ | _ | i
      · simp only [List.getD_cons_zero, List.getD_cons_succ]
        linarith [h3.2]
      · simp only [List.getD_cons_zero, List.getD_cons_succ]; exact le_refl _
      · omega
    · exact absurd hX (by simp)
  · intro r0 r1 r2 r3 c δ X hδ h01 h12 h23 hlo hhi hX
    rw [Eq_candidate_4_players, hδ] at hX
    simp only [Option.bind_eq_bind, Option.some_bind, List.getElem?_cons_zero,
      List.getElem?_cons_succ, Option.pure_def] at hX
    split_ifs at hX with h1 h2 h3
    · simp only [Option.some.injEq] at hX
      subst hX
      intro i hi
      simp only [List.length_cons, List.length_nil] at hi
      rcases i with _ | _ | _ | i
      · simp only [List.getD_cons_zero, List.getD_cons_succ]
        linarith [h1.1]
      · simp only [List.getD_cons_zero, List.getD_cons_succ]
        linarith
      · simp only [List.getD_cons_zero, List.getD_cons_succ]
        linarith [h1.2]
      · omega
    · simp only [Option.some.injEq] at hX
      subst hX
      intro i hi
      simp only [List.length_cons, List.length_nil] at hi
      rcases i with _ | _ | _ | i
      · simp only [List.getD_cons_zero, List.getD_cons_succ]; exact le_refl _
      · simp only [List.getD_cons_zero, List.getD_cons_succ]
        linarith
      · simp only [List.getD_cons_zero, List.getD_cons_succ]
        linarith [h2.2]
      · omega
    · simp only [Option.some.injEq] at hX
      subst hX
      intro i hi
      simp only [List.length_cons, List.length_nil] at hi
      rcases i with _ | _ | _ | i
      · simp only [List.getD_cons_zero, List.getD_cons_succ]
        linarith [h3.1]
      · simp only [List.getD_cons_zero, List.getD_cons_succ]
        linarith [h3.1]
      · simp only [List.getD_cons_zero, List.getD_cons_succ]; exact le_refl _
      · omega
    · simp only [Option.some.injEq] at hX
      subst hX
      intro i hi
      simp only [List.length_cons, List.length_nil] at hi
      rcases i with _ | _ | _ | i
      · simp only [List.getD_cons_zero, List.getD_cons_succ]; exact le_refl _
      · simp only [List.getD_cons_zero, List.getD_cons_succ]
        norm_num
      · simp only [List.getD_cons_zero, List.getD_cons_succ]; exact le_refl _
      · omega
  · intro R c X hn hc hsort hb hX
    have hδ : delta_distance c = some (1 / (4 * c)) := by
      rw [delta_distance, if_neg (by positivity)]
    obtain ⟨X', hX', hlen, hsepL, hclL, hsepR, hclR, hint⟩ :=
      Eq_candidate_n_players_spec R c _ hδ hn
    rw [hX'] at hX
    have hXeq : X = X' := (Option.some.inj hX).symm
    subst hXeq
    have hb' : ∀ j, j < R.length → 0 ≤ R.getD j 0 ∧ R.getD j 0 ≤ 1 :=
      fun j hj => hb _ (getD_mem_of_lt hj)
    intro i hi
    rw [hlen] at hi
    by_cases hi0 : i = 0
    · subst hi0
      by_cases hL : R.getD 0 0 + 1 / (4 * c) < R.getD 1 0
      · obtain ⟨e0, e1⟩ := hsepL hL
        rw [e0, e1]
        linarith
      · obtain ⟨e0, e1⟩ := hclL hL
        rw [e0, e1]
        by_cases hz : R.getD 2 0 / 3 = 0
        · rw [if_pos hz, hz]
          exact (hb' 1 (by omega)).1
        · rw [if_neg hz]
    · by_cases hi1 : i = 1
      · subst hi1
        have hX2 : X.getD 2 0 = R.getD 2 0 := hint 2 (le_refl 2) (by omega)
        rw [hX2]
        by_cases hL : R.getD 0 0 + 1 / (4 * c) < R.getD 1 0
        · rw [(hsepL hL).2]
          exact sorted_getD_le hsort (by omega) (by omega)
        · rw [(hclL hL).2]
          by_cases hz : R.getD 2 0 / 3 = 0
          · rw [if_pos hz]
            exact sorted_getD_le hsort (by omega) (by omega)
          · rw [if_neg hz]
            have h2b := (hb' 2 (by omega)).1
            linarith
      · by_cases hin2 : i = R.length - 2
        · subst hin2
          rw [show R.length - 2 + 1 = R.length - 1 by omega]
          by_cases hRt : R.getD (R.length - 1) 0 - 1 / (4 * c) >
              R.getD (R.length - 2) 0
          · obtain ⟨f1, f2⟩ := hsepR hRt
            rw [f1, f2]
            linarith
          · obtain ⟨f1, f2⟩ := hclR hRt
            rw [f1, f2]
            by_cases hz : (2 + R.getD (R.length - 3) 0) / 3 = 0
            · exfalso
              have h3b := (hb' (R.length - 3) (by omega)).1
              rw [div_eq_zero_iff] at hz
              rcases hz with hz | hz
              · linarith
              · norm_num at hz
            · rw [if_neg hz]
        · by_cases hin3 : i + 1 = R.length - 2
          · have hieq : i = R.length - 3 := by omega
            subst hieq
            rw [hint (R.length - 3) (by omega) (le_refl _), hin3]
            by_cases hRt : R.getD (R.length - 1) 0 - 1 / (4 * c) >
                R.getD (R.length - 2) 0
            · rw [(hsepR hRt).2]
              exact sorted_getD_le hsort (by omega) (by omega)
            · rw [(hclR hRt).2]
              by_cases hz : (2 + R.getD (R.length - 3) 0) / 3 = 0
              · rw [if_pos hz]
                exact sorted_getD_le hsort (by omega) (by omega)
              · rw [if_neg hz]
                have h3b := (hb' (R.length - 3) (by omega)).2
                linarith
          · rw [hint i (by omega) (by omega), hint (i + 1) (by omega) (by omega)]
            exact sorted_getD_le hsort (by omega) (by omega)

/-- C3 witness: instantiations of the three parts at concrete inputs. -/
theorem candidates_monotone_witness :
    (∀ i, i + 1 < ([(1 : ℚ) / 4, 1 / 2, 3 / 4] : List ℚ).length →
      ([(1 : ℚ) / 4, 1 / 2, 3 / 4] : List ℚ).getD i 0 ≤
        ([(1 : ℚ) / 4, 1 / 2, 3 / 4] : List ℚ).getD (i + 1) 0) ∧
    (∀ i, i + 1 < ([(1 : ℚ) / 4, 1 / 3, 2 / 3, 3 / 4] : List ℚ).length →
      ([(1 : ℚ) / 4, 1 / 3, 2 / 3, 3 / 4] : List ℚ).getD i 0 ≤
        ([(1 : ℚ) / 4, 1 / 3, 2 / 3, 3 / 4] : List ℚ).getD (i + 1) 0) ∧
    (∀ i, i + 1 < ([(1 : ℚ) / 6, 1 / 6, 1 / 2, 5 / 6, 5 / 6] : List ℚ).length →
      ([(1 : ℚ) / 6, 1 / 6, 1 / 2, 5 / 6, 5 / 6] : List ℚ).getD i 0 ≤
        ([(1 : ℚ) / 6, 1 / 6, 1 / 2, 5 / 6, 5 / 6] : List ℚ).getD (i + 1) 0) := by
  refine ⟨candidates_monotone.1 0 (1 / 2) 1 1 (1 / 4) _
      (by norm_num [delta_distance]) (by norm_num) (by norm_num) (by norm_num)
      (by norm_num) ?_,
    candidates_monotone.2.1 0 (1 / 3) (2 / 3) 1 1 (1 / 4) _
      (by norm_num [delta_distance]) (by norm_num) (by norm_num) (by norm_num)
      (by norm_num) (by norm_num) ?_,
    candidates_monotone.2.2 [0, 1 / 4, 1 / 2, 3 / 4, 1] 1 _ (by norm_num)
      one_pos (by norm_num) ?_ ?_⟩
  · norm_num [Eq_candidate_3_players, delta_distance]
  · norm_num [Eq_candidate_4_players, delta_distance]
  · intro r hr
    simp only [List.mem_cons, List.not_mem_nil, or_false] at hr
    rcases hr with rfl | rfl | rfl | rfl | rfl <;> norm_num
  · norm_num [Eq_candidate_n_players, fill_interior, delta_distance, List.range',
      List.replicate]

/-- C4: for n ≥ 5, a sorted profile in [0,1] and c > 0, every strictly
interior player not forced into a boundary cluster is placed exactly at its
own reputation — the sentinel-0 fill loop never misfires, because interior
slots are still 0 when the loop runs. -/
theorem interior_players_at_reputation (R : List ℚ) (c : ℚ) (X : List ℚ)
    (hn : 5 ≤ R.length) (hc : 0 < c)
    (_hsort : List.Sorted (fun a b : ℚ => a ≤ b) R)
    (_hb : ∀ r ∈ R, 0 ≤ r ∧ r ≤ 1)
    (hX : Eq_candidate_n_players R c = some X)
    (i : ℕ) (hi1 : 1 ≤ i) (hi2 : i ≤ R.length - 2)
    (hL : i = 1 → R.getD 0 0 + 1 / (4 * c) < R.getD 1 0)
    (hR : i = R.length - 2 →
      R.getD (R.length - 1) 0 - 1 / (4 * c) > R.getD (R.length - 2) 0) :
    X.getD i 0 = R.getD i 0 := by
  have hδ : delta_distance c = some (1 / (4 * c)) := by
    rw [delta_distance, if_neg (by positivity)]
  obtain ⟨X', hX', hlen, hsepL, hclL, hsepR, hclR, hint⟩ :=
    Eq_candidate_n_players_spec R c _ hδ hn
  rw [hX'] at hX
  have hXeq : X = X' := (Option.some.inj hX).symm
  subst hXeq
  by_cases hi0 : i = 1
  · subst hi0
    exact (hsepL (hL rfl)).2
  · by_cases hin2 : i = R.length - 2
    · subst hin2
      exact (hsepR (hR rfl)).2
    · exact hint i (by omega) (by omega)

/-- C4 witness: instantiation at R = [0, 1/2, 3/5, 7/10, 1], c = 1 and the
interior index i = 1 (which is not clustered, since 0 + 1/4 < 1/2). -/
theorem interior_players_at_reputation_witness :
    ([(1 : ℚ) / 4, 1 / 2, 3 / 5, 7 / 10, 3 / 4] : List ℚ).getD 1 0 =
      ([0, 1 / 2, 3 / 5, 7 / 10, 1] : List ℚ).getD 1 0 := by
  refine interior_players_at_reputation [0, 1 / 2, 3 / 5, 7 / 10, 1] 1
    [(1 : ℚ) / 4, 1 / 2, 3 / 5, 7 / 10, 3 / 4] (by norm_num) one_pos
    (by norm_num) ?_ ?_ 1 (by norm_num) (by norm_num) ?_ ?_
  · intro r hr
    simp only [List.mem_cons, List.not_mem_nil, or_false] at hr
    rcases hr with rfl | rfl | rfl | rfl | rfl <;> norm_num
  · norm_num [Eq_candidate_n_players, fill_interior, delta_distance, List.range',
      List.replicate]
  · intro h
    norm_num [List.getD_cons_zero, List.getD_cons_succ]
  · intro h
    norm_num at h

/-- C5 as amended: for n ≥ 5, sorted R and c > 0, if the candidate clusters at
either end and the shared value lies strictly below the inner neighbour's
reputation (left: X[0] < R[1]; right mirrored) or strictly outside the
δ-interval of the peripheral anchor, the verifier returns "No Eq" before any
deviation is evaluated; exact equality (X[0] = R[1], or X[n-1] = R[n-2]) is
accepted, the checks being strict. -/
theorem cluster_consistency_rejects (R : List ℚ) (c : ℚ) (X : List ℚ)
    (hsort : List.Sorted (fun a b : ℚ => a ≤ b) R) (hn : 5 ≤ R.length)
    (hc : 0 < c) (hX : Eq_candidate_n_players R c = some X) :
    ((X.getD 0 0 = X.getD 1 0 ∧
        (X.getD 0 0 < R.getD 1 0 ∨ X.getD 0 0 > R.getD 0 0 + 1 / (4 * c))) →
      equilibrium_n_players R c = some "No Eq") ∧
    ((X.getD (R.length - 2) 0 = X.getD (R.length - 1) 0 ∧
        (X.getD (R.length - 1) 0 < R.getD (R.length - 1) 0 - 1 / (4 * c) ∨
          R.getD (R.length - 2) 0 < X.getD (R.length - 1) 0)) →
      equilibrium_n_players R c = some "No Eq") := by
  have hδ : delta_distance c = some (1 / (4 * c)) := by
    rw [delta_distance, if_neg (by positivity)]
  obtain ⟨X', hX', hlen, -, -, -, -, -⟩ := Eq_candidate_n_players_spec R c _ hδ hn
  rw [hX'] at hX
  have hXeq : X = X' := (Option.some.inj hX).symm
  subst hXeq
  have hX0 : 0 < X.length := by omega
  have hX1 : 1 < X.length := by omega
  have hXn2 : X.length - 2 < X.length := by omega
  have hXn1 : X.length - 1 < X.length := by omega
  have hR0 : 0 < R.length := by omega
  have hR1 : 1 < R.length := by omega
  have hRn2 : X.length - 2 < R.length := by omega
  have hRn1 : X.length - 1 < R.length := by omega
  have hmain : equilibrium_n_players R c =
      (if X[0] = X[1] ∧ (X[0] < R[1] ∨ X[0] > R[0] + 1 / (4 * c)) then
        some "No Eq"
      else if X[X.length - 2] = X[X.length - 1] ∧
          (X[X.length - 1] < R[X.length - 1] - 1 / (4 * c) ∨
            R[X.length - 2] < X[X.length - 1]) then
        some "No Eq"
      else
        (dev_player_1 X R c X.length).bind fun b1 =>
          if b1 then some "No Eq" else
            (dev_player_n X R c X.length).bind fun bn =>
              if bn then some "No Eq" else
                (dev_interior X R c X.length
                    (List.range' 1 (X.length - 2))).bind fun bi =>
                  if bi then some "No Eq" else some "Eq") := by
    rw [equilibrium_n_players, mergeSort_eq_self hsort]
    rw [equilibrium_n_players_sorted, hX', hδ]
    simp only [Option.bind_eq_bind, Option.some_bind, Option.pure_def,
      List.getElem?_eq_getElem hX0, List.getElem?_eq_getElem hX1,
      List.getElem?_eq_getElem hXn2, List.getElem?_eq_getElem hXn1,
      List.getElem?_eq_getElem hR0, List.getElem?_eq_getElem hR1,
      List.getElem?_eq_getElem hRn2, List.getElem?_eq_getElem hRn1]
  constructor
  · intro hcond
    rw [getD_eq_getElem_rat hX0, getD_eq_getElem_rat hX1, getD_eq_getElem_rat hR0,
      getD_eq_getElem_rat hR1] at hcond
    rw [hmain, if_pos hcond]
  · intro hcond
    rw [← hlen] at hcond
    rw [getD_eq_getElem_rat hXn2, getD_eq_getElem_rat hXn1,
      getD_eq_getElem_rat hRn2, getD_eq_getElem_rat hRn1] at hcond
    rw [hmain]
    by_cases hc1 : X[0] = X[1] ∧ (X[0] < R[1] ∨ X[0] > R[0] + 1 / (4 * c))
    · rw [if_pos hc1]
    · rw [if_neg hc1, if_pos hcond]

/-- C5 amended-claim witness: on the sorted profile [3/10, 3/10, 3/5, 4/5, 1]
with c = 1 the candidate clusters on the left at 1/5 < R[1] = 3/10, and the
verifier indeed answers "No Eq". -/
theorem cluster_consistency_rejects_witness :
    equilibrium_n_players [3 / 10, 3 / 10, 3 / 5, 4 / 5, 1] 1 = some "No Eq" := by
  refine (cluster_consistency_rejects [3 / 10, 3 / 10, 3 / 5, 4 / 5, 1] 1
    [1 / 5, 1 / 5, 3 / 5, 13 / 15, 13 / 15] (by norm_num) (by norm_num)
    one_pos ?_).1 ⟨by norm_num, Or.inl (by norm_num)⟩
  norm_num [Eq_candidate_n_players, fill_interior, delta_distance, List.range',
    List.replicate]

set_option maxHeartbeats 2000000 in
/-- C5 counterexample: on the sorted profile [3/20, 1/5, 3/5, 4/5, 1] with
c = 5/2 (δ = 1/10), the candidate clusters on the left with shared value
X[0] = X[1] = 1/5 equal to R[1], so the strict ordering R[1] < X[0] claimed by
the specification is violated — yet the verifier returns "Eq", not
"NoEquilibrium": the code's consistency check only rejects X[0] strictly below
R[1]. -/
theorem cluster_check_equality_accepted :
    Eq_candidate_n_players [3 / 20, 1 / 5, 3 / 5, 4 / 5, 1] (5 / 2) =
      some [1 / 5, 1 / 5, 3 / 5, 4 / 5, 9 / 10] ∧
    ([(1 : ℚ) / 5, 1 / 5, 3 / 5, 4 / 5, 9 / 10] : List ℚ).getD 0 0 =
      ([(1 : ℚ) / 5, 1 / 5, 3 / 5, 4 / 5, 9 / 10] : List ℚ).getD 1 0 ∧
    ¬(([(3 : ℚ) / 20, 1 / 5, 3 / 5, 4 / 5, 1] : List ℚ).getD 1 0 <
        ([(1 : ℚ) / 5, 1 / 5, 3 / 5, 4 / 5, 9 / 10] : List ℚ).getD 0 0) ∧
    equilibrium_n_players [3 / 20, 1 / 5, 3 / 5, 4 / 5, 1] (5 / 2) = some "Eq" := by
  refine ⟨?_, by norm_num, by norm_num, ?_⟩
  · norm_num [Eq_candidate_n_players, fill_interior, delta_distance, List.range',
      List.replicate]
  · rw [equilibrium_n_players, mergeSort_eq_self (by norm_num)]
    norm_num [equilibrium_n_players_sorted, Eq_candidate_n_players, fill_interior,
      delta_distance, dev_player_1, dev_player_n, dev_interior, right_gap_dev,
      left_gap_dev, List.range', List.replicate]

set_option maxHeartbeats 2000000 in
/-- C9: for a sorted 4-player profile whose two boundary pairs both cluster
(R[0] + δ ≥ R[1] and R[3] - δ ≤ R[2]), the candidate is [1/4, 1/4, 3/4, 3/4]
and the verdict is "Eq" exactly when the two cluster-consistency checks pass,
i.e. 1/4 ∈ [R[1], R[0]+δ] and 3/4 ∈ [R[3]-δ, R[2]] — no deviation matters.
The companion concrete conjuncts show that neither the 3-player nor the
n-player verifier has such an early exit: with both clusters formed and both
consistency checks passing, the n-player verifier still answers "No Eq" (a
deviation is found), and the 3-player builder rejects outright. -/
theorem four_player_double_cluster_early_exit (r0 r1 r2 r3 c δ : ℚ)
    (hδ : delta_distance c = some δ)
    (hsort : List.Sorted (fun a b : ℚ => a ≤ b) [r0, r1, r2, r3])
    (hcl : r0 + δ ≥ r1) (hcr : r3 - δ ≤ r2) :
    Eq_candidate_4_players [r0, r1, r2, r3] c =
      some [1 / 4, 1 / 4, 3 / 4, 3 / 4] ∧
    (equilibrium_4_players [r0, r1, r2, r3] c = some "Eq" ↔
      (r1 ≤ 1 / 4 ∧ 1 / 4 ≤ r0 + δ ∧ r3 - δ ≤ 3 / 4 ∧ 3 / 4 ≤ r2)) ∧
    equilibrium_3_players [1 / 2, 1 / 2, 1 / 2] 1 = some "No Eq" ∧
    equilibrium_n_players [1 / 10, 1 / 10, 3 / 10, 4 / 5, 1] 1 = some "No Eq" ∧
    ((1 : ℚ) / 10 + 1 / 4 ≥ 1 / 10 ∧ (1 : ℚ) - 1 / 4 ≤ 4 / 5) ∧
    Eq_candidate_n_players [1 / 10, 1 / 10, 3 / 10, 4 / 5, 1] 1 =
      some [1 / 10, 1 / 10, 3 / 10, 23 / 30, 23 / 30] ∧
    ¬(([(1 : ℚ) / 10, 1 / 10, 3 / 10, 23 / 30, 23 / 30] : List ℚ).getD 0 0 <
        ([(1 : ℚ) / 10, 1 / 10, 3 / 10, 4 / 5, 1] : List ℚ).getD 1 0 ∨
      ([(1 : ℚ) / 10, 1 / 10, 3 / 10, 23 / 30, 23 / 30] : List ℚ).getD 0 0 >
        ([(1 : ℚ) / 10, 1 / 10, 3 / 10, 4 / 5, 1] : List ℚ).getD 0 0 + 1 / 4) ∧
    ¬(([(1 : ℚ) / 10, 1 / 10, 3 / 10, 23 / 30, 23 / 30] : List ℚ).getD 4 0 <
        ([(1 : ℚ) / 10, 1 / 10, 3 / 10, 4 / 5, 1] : List ℚ).getD 4 0 - 1 / 4 ∨
      ([(1 : ℚ) / 10, 1 / 10, 3 / 10, 4 / 5, 1] : List ℚ).getD 3 0 <
        ([(1 : ℚ) / 10, 1 / 10, 3 / 10, 23 / 30, 23 / 30] : List ℚ).getD 4 0) := by
  have hcand : Eq_candidate_4_players [r0, r1, r2, r3] c =
      some [1 / 4, 1 / 4, 3 / 4, 3 / 4] := by
    rw [Eq_candidate_4_players, hδ]
    simp only [Option.bind_eq_bind, Option.some_bind, List.getElem?_cons_zero,
      List.getElem?_cons_succ, Option.pure_def]
    rw [if_neg (fun hand => absurd hand.1 (not_lt.mpr hcl)),
      if_neg (fun hand => absurd hand.2 (not_lt.mpr hcr)),
      if_neg (fun hand => absurd hand.1 (not_lt.mpr hcl))]
  refine ⟨hcand, ?_, ?_, ?_, by norm_num, ?_, by norm_num, by norm_num⟩
  · rw [equilibrium_4_players, mergeSort_eq_self hsort]
    rw [equilibrium_4_players_sorted, hcand, hδ]
    simp only [Option.bind_eq_bind, Option.some_bind, List.getElem?_cons_zero,
      List.getElem?_cons_succ, Option.pure_def]
    by_cases hchk1 : (1 : ℚ) / 4 < r1 ∨ (1 : ℚ) / 4 > r0 + δ
    · rw [if_pos ⟨trivial, hchk1⟩]
      refine iff_of_false (by simp) (fun hrhs => ?_)
      rcases hchk1 with h | h
      · linarith [hrhs.1]
      · linarith [hrhs.2.1]
    · rw [if_neg (fun hand => hchk1 hand.2)]
      by_cases hchk2 : (3 : ℚ) / 4 < r3 - δ ∨ r2 < 3 / 4
      · rw [if_pos ⟨trivial, hchk2⟩]
        refine iff_of_false (by simp) (fun hrhs => ?_)
        rcases hchk2 with h | h
        · linarith [hrhs.2.2.1]
        · linarith [hrhs.2.2.2]
      · rw [if_neg (fun hand => hchk2 hand.2), if_pos trivial]
        push_neg at hchk1 hchk2
        exact iff_of_true rfl ⟨hchk1.1, hchk1.2, hchk2.1, hchk2.2⟩
  · rw [equilibrium_3_players, mergeSort_eq_self (by norm_num)]
    norm_num [equilibrium_3_players_sorted, Eq_candidate_3_players, delta_distance]
  · rw [equilibrium_n_players, mergeSort_eq_self (by norm_num)]
    norm_num [equilibrium_n_players_sorted, Eq_candidate_n_players, fill_interior,
      delta_distance, dev_player_1, dev_player_n, dev_interior, right_gap_dev,
      left_gap_dev, List.range', List.replicate]
  · norm_num [Eq_candidate_n_players, fill_interior, delta_distance, List.range',
      List.replicate]

/-- C9 witness: instantiation at the sorted profile [1/5, 1/4, 3/4, 4/5] with
c = 1, where both boundary pairs cluster and both consistency checks pass. -/
theorem four_player_double_cluster_early_exit_witness :
    equilibrium_4_players [1 / 5, 1 / 4, 3 / 4, 4 / 5] 1 = some "Eq" ↔
      ((1 : ℚ) / 4 ≤ 1 / 4 ∧ (1 : ℚ) / 4 ≤ 1 / 5 + 1 / 4 ∧
        (4 : ℚ) / 5 - 1 / 4 ≤ 3 / 4 ∧ (3 : ℚ) / 4 ≤ 3 / 4) :=
  (four_player_double_cluster_early_exit (1 / 5) (1 / 4) (3 / 4) (4 / 5) 1 (1 / 4)
    (by norm_num [delta_distance]) (by norm_num) (by norm_num) (by norm_num)).2.1

/-! ## Totality of the n-player verifier -/

/-- Totality of an `Option.bind` whose head and continuation are total. -/
theorem bind_total (o : Option Bool) (f : Bool → Option Bool)
    (ho : ∃ b, o = some b) (hf : ∀ b, ∃ b2, f b = some b2) :
    ∃ b2, o.bind f = some b2 := by
  obtain ⟨b, hb⟩ := ho
  rw [hb, Option.some_bind]
  exact hf b

/-- The right-gap scan succeeds whenever all visited indices (and their right
neighbours) are in bounds. -/
theorem right_gap_dev_total (X : List ℚ) (c r payoff : ℚ) :
    ∀ js : List Nat, (∀ j ∈ js, j + 1 < X.length) →
      ∃ b, right_gap_dev X c r payoff js = some b := by
  intro js
  induction js with
  | nil => intro _; exact ⟨false, rfl⟩
  | cons j js ih =>
    intro h
    have hj1 : j + 1 < X.length := h j (List.mem_cons_self j js)
    have hj : j < X.length := by omega
    obtain ⟨b, hb⟩ := ih (fun k hk => h k (List.mem_cons_of_mem j hk))
    simp only [right_gap_dev, List.getElem?_eq_getElem hj,
      List.getElem?_eq_getElem hj1, Option.bind_eq_bind, Option.some_bind]
    by_cases he : X[j] = X[j + 1]
    · rw [if_pos he]; exact ⟨b, hb⟩
    · rw [if_neg he]
      by_cases hgt : (X[j + 1] - X[j]) / 2 - c * (X[j] - r) ^ 2 > payoff
      · rw [if_pos hgt]; exact ⟨true, rfl⟩
      · rw [if_neg hgt]; exact ⟨b, hb⟩

/-- The left-gap scan succeeds whenever all visited indices are in bounds. -/
theorem left_gap_dev_total (X : List ℚ) (c r payoff : ℚ) :
    ∀ js : List Nat, (∀ j ∈ js, j < X.length) →
      ∃ b, left_gap_dev X c r payoff js = some b := by
  intro js
  induction js with
  | nil => intro _; exact ⟨false, rfl⟩
  | cons j js ih =>
    intro h
    have hj : j < X.length := h j (List.mem_cons_self j js)
    have hjm : j - 1 < X.length := by omega
    obtain ⟨b, hb⟩ := ih (fun k hk => h k (List.mem_cons_of_mem j hk))
    simp only [left_gap_dev, List.getElem?_eq_getElem hj,
      List.getElem?_eq_getElem hjm, Option.bind_eq_bind, Option.some_bind]
    by_cases he : X[j] = X[j - 1]
    · rw [if_pos he]; exact ⟨b, hb⟩
    · rw [if_neg he]
      by_cases hgt : (X[j] - X[j - 1]) / 2 - c * (X[j] - r) ^ 2 > payoff
      · rw [if_pos hgt]; exact ⟨true, rfl⟩
      · rw [if_neg hgt]; exact ⟨b, hb⟩

/-- The interior deviation loop succeeds whenever all visited players (and
their neighbours) are in bounds. -/
theorem dev_interior_total (X R : List ℚ) (c : ℚ) (n : Nat)
    (hR : R.length = X.length) (h0 : 0 < X.length) (hn1 : n - 1 < X.length) :
    ∀ ps : List Nat, (∀ p ∈ ps, p + 1 < X.length) →
      ∃ b, dev_interior X R c n ps = some b := by
  intro ps
  induction ps with
  | nil => intro _; exact ⟨false, rfl⟩
  | cons p ps ih =>
    intro h
    have hp1 : p + 1 < X.length := h p (List.mem_cons_self p ps)
    have hp : p < X.length := by omega
    have hpm : p - 1 < X.length := by omega
    have hpR : p < R.length := by omega
    obtain ⟨b, hb⟩ := ih (fun k hk => h k (List.mem_cons_of_mem p hk))
    simp only [dev_interior, List.getElem?_eq_getElem hp,
      List.getElem?_eq_getElem hp1, List.getElem?_eq_getElem hpm,
      List.getElem?_eq_getElem hpR, List.getElem?_eq_getElem h0,
      List.getElem?_eq_getElem hn1, Option.bind_eq_bind, Option.some_bind]
    by_cases hskip : X[p - 1] = X[p] ∨ X[p] = X[p + 1]
    · rw [if_pos hskip]; exact ⟨b, hb⟩
    · rw [if_neg hskip]
      by_cases hd1 : X[0] - c * (X[0] - R[p]) ^ 2 > (X[p + 1] - X[p - 1]) / 2
      · rw [if_pos hd1]; exact ⟨true, rfl⟩
      · rw [if_neg hd1]
        by_cases hd2 : (1 - X[n - 1]) - c * (X[n - 1] - R[p]) ^ 2 >
            (X[p + 1] - X[p - 1]) / 2
        · rw [if_pos hd2]; exact ⟨true, rfl⟩
        · rw [if_neg hd2]
          obtain ⟨bl, hbl⟩ := left_gap_dev_total X c R[p] ((X[p + 1] - X[p - 1]) / 2)
            (List.range' 1 (p - 1))
            (fun j hj => by have := List.mem_range'_1.mp hj; omega)
          rw [hbl]
          simp only [Option.some_bind]
          rcases bl with _ | _
          · rw [if_neg (by simp)]
            obtain ⟨br, hbr⟩ := right_gap_dev_total X c R[p] ((X[p + 1] - X[p - 1]) / 2)
              (List.range' (p + 1) (n - 2 - p))
              (fun j hj => by have := List.mem_range'_1.mp hj; omega)
            rw [hbr]
            simp only [Option.some_bind]
            rcases br with _ | _
            · rw [if_neg (by simp)]; exact ⟨b, hb⟩
            · rw [if_pos rfl]; exact ⟨true, rfl⟩
          · rw [if_pos rfl]; exact ⟨true, rfl⟩

/-- The "Deviations of Player 1" block succeeds on candidates of length
at least 5. -/
theorem dev_player_1_total (X R : List ℚ) (c : ℚ)
    (hlen5 : 5 ≤ X.length) (hR : R.length = X.length) :
    ∃ b, dev_player_1 X R c X.length = some b := by
  have h0 : 0 < X.length := by omega
  have h1 : 1 < X.length := by omega
  have h2 : 2 < X.length := by omega
  have hn1 : X.length - 1 < X.length := by omega
  have hR0 : 0 < R.length := by omega
  have hR1 : 1 < R.length := by omega
  simp only [dev_player_1, List.getElem?_eq_getElem h0,
    List.getElem?_eq_getElem h1, List.getElem?_eq_getElem h2,
    List.getElem?_eq_getElem hn1, List.getElem?_eq_getElem hR0,
    List.getElem?_eq_getElem hR1, Option.bind_eq_bind, Option.some_bind]
  by_cases hne : X[0] ≠ X[1]
  · rw [if_pos hne]
    split
    · exact ⟨true, rfl⟩
    · exact right_gap_dev_total X c R[0] _ (List.range' 1 (X.length - 2))
        (fun j hj => by have := List.mem_range'_1.mp hj; omega)
  · rw [if_neg hne]
    split
    · exact ⟨true, rfl⟩
    · refine bind_total _ _ (right_gap_dev_total X c R[0] _
        (List.range' 2 (X.length - 3))
        (fun j hj => by have := List.mem_range'_1.mp hj; omega)) ?_
      intro b1
      rcases b1 with _ | _
      · rw [if_neg (by simp)]
        split
        · exact ⟨true, rfl⟩
        · exact right_gap_dev_total X c R[1] _ (List.range' 2 (X.length - 3))
            (fun j hj => by have := List.mem_range'_1.mp hj; omega)
      · rw [if_pos rfl]; exact ⟨true, rfl⟩

/-- The "Deviations of Player n" block succeeds on candidates of length
at least 5. -/
theorem dev_player_n_total (X R : List ℚ) (c : ℚ)
    (hlen5 : 5 ≤ X.length) (hR : R.length = X.length) :
    ∃ b, dev_player_n X R c X.length = some b := by
  have h0 : 0 < X.length := by omega
  have hn1 : X.length - 1 < X.length := by omega
  have hn2 : X.length - 2 < X.length := by omega
  have hn3 : X.length - 3 < X.length := by omega
  have hRn1 : X.length - 1 < R.length := by omega
  have hRn2 : X.length - 2 < R.length := by omega
  simp only [dev_player_n, List.getElem?_eq_getElem h0,
    List.getElem?_eq_getElem hn1, List.getElem?_eq_getElem hn2,
    List.getElem?_eq_getElem hn3, List.getElem?_eq_getElem hRn1,
    List.getElem?_eq_getElem hRn2, Option.bind_eq_bind, Option.some_bind]
  by_cases hne : X[X.length - 1] ≠ X[X.length - 2]
  · rw [if_pos hne]
    split
    · exact ⟨true, rfl⟩
    · exact left_gap_dev_total X c R[X.length - 1] _ (List.range' 1 (X.length - 2))
        (fun j hj => by have := List.mem_range'_1.mp hj; omega)
  · rw [if_neg hne]
    split
    · exact ⟨true, rfl⟩
    · refine bind_total _ _ (left_gap_dev_total X c R[X.length - 1] _
        (List.range' 1 (X.length - 3))
        (fun j hj => by have := List.mem_range'_1.mp hj; omega)) ?_
      intro b1
      rcases b1 with _ | _
      · rw [if_neg (by simp)]
        split
        · exact ⟨true, rfl⟩
        · exact left_gap_dev_total X c R[X.length - 2] _ (List.range' 1 (X.length - 3))
            (fun j hj => by have := List.mem_range'_1.mp hj; omega)
      · rw [if_pos rfl]; exact ⟨true, rfl⟩

/-- C10: for every profile of length at least 5 and every c > 0, the n-player
verifier terminates normally (no index error, no division by zero) and
returns exactly "Eq" or "No Eq". -/
theorem equilibrium_n_players_total (R : List ℚ) (c : ℚ)
    (hn : 5 ≤ R.length) (hc : 0 < c) :
    ∃ s, equilibrium_n_players R c = some s ∧ (s = "Eq" ∨ s = "No Eq") := by
  have hδ : delta_distance c = some (1 / (4 * c)) := by
    rw [delta_distance, if_neg (by positivity)]
  rw [equilibrium_n_players]
  have hLlen : (R.mergeSort (fun a b => a ≤ b)).length = R.length :=
    List.length_mergeSort R
  set L := R.mergeSort (fun a b => a ≤ b) with hLdef
  have hn' : 5 ≤ L.length := by omega
  obtain ⟨X, hX, hXlen, -, -, -, -, -⟩ := Eq_candidate_n_players_spec L c _ hδ hn'
  have hX0 : 0 < X.length := by omega
  have hX1 : 1 < X.length := by omega
  have hXn2 : X.length - 2 < X.length := by omega
  have hXn1 : X.length - 1 < X.length := by omega
  have hL0 : 0 < L.length := by omega
  have hL1 : 1 < L.length := by omega
  have hLn2 : X.length - 2 < L.length := by omega
  have hLn1 : X.length - 1 < L.length := by omega
  rw [equilibrium_n_players_sorted, hX, hδ]
  simp only [Option.bind_eq_bind, Option.some_bind, Option.pure_def,
    List.getElem?_eq_getElem hX0, List.getElem?_eq_getElem hX1,
    List.getElem?_eq_getElem hXn2, List.getElem?_eq_getElem hXn1,
    List.getElem?_eq_getElem hL0, List.getElem?_eq_getElem hL1,
    List.getElem?_eq_getElem hLn2, List.getElem?_eq_getElem hLn1]
  by_cases hchk1 : X[0] = X[1] ∧ (X[0] < L[1] ∨ X[0] > L[0] + 1 / (4 * c))
  · rw [if_pos hchk1]; exact ⟨"No Eq", rfl, Or.inr rfl⟩
  · rw [if_neg hchk1]
    by_cases hchk2 : X[X.length - 2] = X[X.length - 1] ∧
        (X[X.length - 1] < L[X.length - 1] - 1 / (4 * c) ∨
          L[X.length - 2] < X[X.length - 1])
    · rw [if_pos hchk2]; exact ⟨"No Eq", rfl, Or.inr rfl⟩
    · rw [if_neg hchk2]
      obtain ⟨b1, hb1⟩ := dev_player_1_total X L c (by omega) (by omega)
      rw [hb1]
      simp only [Option.some_bind]
      rcases b1 with _ | _
      · rw [if_neg (by simp)]
        obtain ⟨bn, hbn⟩ := dev_player_n_total X L c (by omega) (by omega)
        rw [hbn]
        simp only [Option.some_bind]
        rcases bn with _ | _
        · rw [if_neg (by simp)]
          obtain ⟨bi, hbi⟩ := dev_interior_total X L c X.length (by omega) hX0 hXn1
            (List.range' 1 (X.length - 2))
            (fun p hp => by have := List.mem_range'_1.mp hp; omega)
          rw [hbi]
          simp only [Option.some_bind]
          rcases bi with _ | _
          · rw [if_neg (by simp)]; exact ⟨"Eq", rfl, Or.inl rfl⟩
          · rw [if_pos rfl]; exact ⟨"No Eq", rfl, Or.inr rfl⟩
        · rw [if_pos rfl]; exact ⟨"No Eq", rfl, Or.inr rfl⟩
      · rw [if_pos rfl]; exact ⟨"No Eq", rfl, Or.inr rfl⟩

/-- C10 witness: instantiation at R = [0, 1/4, 1/2, 3/4, 1], c = 1. -/
theorem equilibrium_n_players_total_witness :
    ∃ s, equilibrium_n_players [0, 1 / 4, 1 / 2, 3 / 4, 1] 1 = some s ∧
      (s = "Eq" ∨ s = "No Eq") :=
  equilibrium_n_players_total [0, 1 / 4, 1 / 2, 3 / 4, 1] 1 (by norm_num) one_pos
